import Mathlib

/-!
Verification of the network-traffic-analyzer core: a shallow embedding of
the BGP UPDATE decoder (`protocols/bgp.py`), the OSPF LS-Update decoder
(`protocols/ospf.py`) and the topology graph (`topology.py`), together with
theorems about the properties the specification states for them.

Python byte buffers are embedded as `List Nat`; Python `data[i]` (which
raises `IndexError` out of range) is `pyByte`, Python slicing (which
silently truncates) is `pySlice`, and `struct.unpack` of a 2- or 4-byte
big-endian field (which raises `struct.error` when the slice is short) is
`readU16` / `readU32`.  A decoder failure is an `Except` error carrying a
`DecodeError`: `bgpError` / `ospfError` embed the two parser exception
classes, while `pyError` embeds the runtime exceptions (IndexError,
struct.error, AddressValueError) that are not caught by the parsers.
-/

namespace NetAnalyzer

abbrev Bytes := List Nat

/-- Python `data[i]` on a byte buffer: `some` byte, or `none` = IndexError. -/
def pyByte (data : Bytes) (i : Nat) : Option Nat := data.get? i

/-- Python `data[a:b]` for `0 ≤ a`, `0 ≤ b`: truncates silently, and yields
`[]` whenever `b ≤ a`. -/
def pySlice (data : Bytes) (a b : Nat) : Bytes := (data.drop a).take (b - a)

/-- Python `struct.unpack("!H", data[i:i+2])[0]`: `none` = struct.error. -/
def readU16 (data : Bytes) (i : Nat) : Option Nat :=
  match pySlice data i (i + 2) with
  | [b0, b1] => some (256 * b0 + b1)
  | _ => none

/-- Python `struct.unpack("!I", data[i:i+4])[0]`: `none` = struct.error. -/
def readU32 (data : Bytes) (i : Nat) : Option Nat :=
  match pySlice data i (i + 4) with
  | [b0, b1, b2, b3] => some (((256 * b0 + b1) * 256 + b2) * 256 + b3)
  | _ => none

/-- `str(ipaddress.IPv4Address(bytes([a,b,c,d])))`. -/
def ipv4Str (a b c d : Nat) : String :=
  toString a ++ "." ++ toString b ++ "." ++ toString c ++ "." ++ toString d

/-- `str(ipaddress.IPv4Address(bs))` for a byte string: defined only on
4-byte inputs, `none` = AddressValueError. -/
def ipv4OfBytes (bs : Bytes) : Option String :=
  match bs with
  | [a, b, c, d] => some (ipv4Str a b c d)
  | _ => none

/-- Python `bs.ljust(4, b"\x00")` (no truncation above 4). -/
def ljust4 (bs : Bytes) : Bytes := bs ++ List.replicate (4 - bs.length) 0

/-- The failure kinds a decoder call can produce: the two parser exception
classes plus the uncaught Python runtime errors. -/
inductive DecodeError where
  | bgpError (msg : String)
  | ospfError (msg : String)
  | pyError (msg : String)
deriving DecidableEq, Repr

/-! ## BGP UPDATE decoder (`protocols/bgp.py`) -/

/-- The `value` field of a `BgpPathAttribute`: Python stores an `object`,
which for the four decoded type codes is a string, a list of ints, an int,
or the raw bytes. -/
inductive AttrValue where
  | str (s : String)
  | asList (l : List Nat)
  | nat (n : Nat)
  | raw (b : Bytes)
deriving DecidableEq, Repr

/-- Python truthiness (`if update.next_hop:`) of a stored attribute value. -/
def AttrValue.truthy : AttrValue → Bool
  | .str s => s ≠ ""
  | .asList l => l ≠ []
  | .nat n => n ≠ 0
  | .raw b => b ≠ []

/-- The stored value read back as the string the topology code passes to
`add_link` / `add_prefix_origin`; parser-produced NEXT_HOP values are
always `.str`, so the default is never reached on parser output. -/
def AttrValue.asStr : AttrValue → String
  | .str s => s
  | _ => ""

structure BgpPathAttribute where
  flags : Nat
  type_code : Nat
  value : AttrValue
  raw_value : Bytes
deriving DecidableEq, Repr

structure BgpUpdate where
  withdrawn_routes : List String
  path_attributes : List BgpPathAttribute
  nlri : List String
deriving DecidableEq, Repr

/-- `BgpUpdate.get_attribute`: first attribute with the given type code. -/
def BgpUpdate.get_attribute (u : BgpUpdate) (type_code : Nat) : Option BgpPathAttribute :=
  u.path_attributes.find? (fun a => a.type_code = type_code)

/-- `BgpUpdate.next_hop` (the value of the first NEXT_HOP attribute, or
Python `None`). -/
def BgpUpdate.next_hop (u : BgpUpdate) : Option AttrValue :=
  (u.get_attribute 3).map (·.value)

/-- `BgpUpdate.as_path` (the value of the first AS_PATH attribute, or the
empty list). -/
def BgpUpdate.as_path (u : BgpUpdate) : AttrValue :=
  match u.get_attribute 2 with
  | some a => a.value
  | none => .asList []

/-- Inner loop of `_decode_attribute_value` for AS_PATH: reads `count`
2-byte big-endian AS numbers starting at `offset` of `raw`. -/
def asPathValues (raw : Bytes) (offset : Nat) (count : Nat) (acc : List Nat) :
    Except DecodeError (List Nat) :=
  match count with
  | 0 => .ok acc
  | c + 1 =>
    if raw.length < offset + 2 then .error (.bgpError "Malformed AS_PATH value")
    else
      match readU16 raw offset with
      | some v => asPathValues raw (offset + 2) c (acc ++ [v])
      | none => .error (.pyError "struct.error")

/-- Outer loop of `_decode_attribute_value` for AS_PATH: repeated
(segment type, segment count, count × 2-byte AS number) segments.  On
success the inner loop consumes exactly `2 * count` bytes, so the next
segment starts at `offset + 2 + 2 * count`. -/
def asPathSegments (raw : Bytes) (offset : Nat) (acc : List Nat) :
    Except DecodeError (List Nat) :=
  if h : offset < raw.length then
    if raw.length < offset + 2 then .error (.bgpError "Malformed AS_PATH segment")
    else
      match pyByte raw offset, pyByte raw (offset + 1) with
      | some segment_type, some segment_length =>
        if segment_type = 1 ∨ segment_type = 2 then
          match asPathValues raw (offset + 2) segment_length acc with
          | .ok acc' => asPathSegments raw (offset + 2 + 2 * segment_length) acc'
          | .error e => .error e
        else .error (.bgpError ("Unsupported AS_PATH segment type " ++ toString segment_type))
      | _, _ => .error (.pyError "IndexError")
  else .ok acc
termination_by raw.length - offset
decreasing_by omega

/-- `_decode_attribute_value`. -/
def decode_attribute_value (type_code : Nat) (raw_value : Bytes) :
    Except DecodeError AttrValue :=
  if type_code = 1 then
    match raw_value.head? with
    | none => .ok (.str "UNKNOWN")
    | some 0 => .ok (.str "IGP")
    | some 1 => .ok (.str "EGP")
    | some 2 => .ok (.str "INCOMPLETE")
    | some _ => .ok (.str "UNKNOWN")
  else if type_code = 2 then
    (asPathSegments raw_value 0 []).map .asList
  else if type_code = 3 then
    if raw_value.length ≠ 4 then .error (.bgpError "NEXT_HOP attribute must be 4 bytes")
    else
      match ipv4OfBytes raw_value with
      | some s => .ok (.str s)
      | none => .error (.pyError "AddressValueError")
  else if type_code = 4 then
    if raw_value.length ≠ 4 then .error (.bgpError "MED attribute must be 4 bytes")
    else
      match readU32 raw_value 0 with
      | some v => .ok (.nat v)
      | none => .error (.pyError "struct.error")
  else .ok (.raw raw_value)

/-- Loop of `_parse_nlri`: while `offset < e`, read a prefix-length byte
and `ceil(prefix_length/8)` address bytes (Python slicing: silently
truncated at the end of the whole buffer, never bounds-checked against
`e`). -/
def parseNlriLoop (data : Bytes) (offset e : Nat) (acc : List String) :
    Except DecodeError (List String × Nat) :=
  if h : offset < e then
    match pyByte data offset with
    | none => .error (.pyError "IndexError")
    | some prefix_length =>
      let byte_length := (prefix_length + 7) / 8
      let prefix_bytes := pySlice data (offset + 1) (offset + 1 + byte_length)
      match ipv4OfBytes (ljust4 prefix_bytes) with
      | none => .error (.pyError "AddressValueError")
      | some p =>
        parseNlriLoop data (offset + 1 + byte_length) e
          (acc ++ [p ++ "/" ++ toString prefix_length])
  else .ok (acc, offset)
termination_by e - offset
decreasing_by omega

/-- `_parse_nlri(data, offset, length)`. -/
def parse_nlri (data : Bytes) (offset length : Nat) :
    Except DecodeError (List String × Nat) :=
  parseNlriLoop data offset (offset + length) []

/-- Loop of `_parse_path_attributes` together with the final
`offset != end` check.  The Python comparisons `end - offset < k` are on
signed ints and are rendered as `e < offset + k`. -/
def parsePathAttrsLoop (data : Bytes) (offset e : Nat) (acc : List BgpPathAttribute) :
    Except DecodeError (List BgpPathAttribute × Nat) :=
  if h : offset < e then
    if e < offset + 2 then .error (.bgpError "Truncated path attribute header")
    else
      match pyByte data offset, pyByte data (offset + 1) with
      | some flags, some type_code =>
        if flags &&& 0x10 ≠ 0 then
          if e < offset + 4 then .error (.bgpError "Truncated extended length")
          else
            match readU16 data (offset + 2) with
            | none => .error (.pyError "struct.error")
            | some attr_len =>
              if e < offset + 4 + attr_len then
                .error (.bgpError "Truncated path attribute payload")
              else
                let raw_value := pySlice data (offset + 4) (offset + 4 + attr_len)
                match decode_attribute_value type_code raw_value with
                | .error err => .error err
                | .ok value =>
                  parsePathAttrsLoop data (offset + 4 + attr_len) e
                    (acc ++ [⟨flags, type_code, value, raw_value⟩])
        else
          match pyByte data (offset + 2) with
          | none => .error (.pyError "IndexError")
          | some attr_len =>
            if e < offset + 3 + attr_len then
              .error (.bgpError "Truncated path attribute payload")
            else
              let raw_value := pySlice data (offset + 3) (offset + 3 + attr_len)
              match decode_attribute_value type_code raw_value with
              | .error err => .error err
              | .ok value =>
                parsePathAttrsLoop data (offset + 3 + attr_len) e
                  (acc ++ [⟨flags, type_code, value, raw_value⟩])
      | _, _ => .error (.pyError "IndexError")
  else
    if offset ≠ e then .error (.bgpError "Path attribute length mismatch")
    else .ok (acc, offset)
termination_by e - offset
decreasing_by all_goals omega

/-- `_parse_path_attributes(data, offset, length)`. -/
def parse_path_attributes (data : Bytes) (offset length : Nat) :
    Except DecodeError (List BgpPathAttribute × Nat) :=
  parsePathAttrsLoop data offset (offset + length) []

/-- `parse_bgp_update` (exposed as `decode_bgp_update`). -/
def parse_bgp_update (payload : Bytes) : Except DecodeError BgpUpdate :=
  if payload.length < 23 then .error (.bgpError "Payload too small for BGP header")
  else if pySlice payload 0 16 ≠ List.replicate 16 255 then
    .error (.bgpError "Invalid marker in BGP header")
  else
    match readU16 payload 16 with
    | none => .error (.pyError "struct.error")
    | some length =>
      if length ≠ payload.length then .error (.bgpError "BGP length mismatch")
      else
        match pyByte payload 18 with
        | none => .error (.pyError "IndexError")
        | some message_type =>
          if message_type ≠ 2 then
            .error (.bgpError ("Unsupported BGP message type " ++ toString message_type))
          else
            match readU16 payload 19 with
            | none => .error (.pyError "struct.error")
            | some withdrawn_len =>
              match parse_nlri payload 21 withdrawn_len with
              | .error e => .error e
              | .ok (withdrawn_routes, offset1) =>
                match readU16 payload offset1 with
                | none => .error (.pyError "struct.error")
                | some total_path_attr_len =>
                  match parse_path_attributes payload (offset1 + 2) total_path_attr_len with
                  | .error e => .error e
                  | .ok (path_attributes, offset2) =>
                    match parse_nlri payload offset2 (payload.length - offset2) with
                    | .error e => .error e
                    | .ok (nlri, offset3) =>
                      if offset3 ≠ payload.length then
                        .error (.bgpError "Trailing bytes after NLRI parsing")
                      else
                        .ok ⟨withdrawn_routes, path_attributes, nlri⟩

/-! ## OSPF LS-Update decoder (`protocols/ospf.py`) -/

structure OspfRouterLink where
  link_id : String
  link_data : String
  link_type : Nat
  metric : Nat
deriving DecidableEq, Repr

structure OspfRouterLsa where
  advertising_router : String
  link_state_id : String
  links : List OspfRouterLink
deriving DecidableEq, Repr

/-- Link-record loop of the Router-LSA body: `num_links` repetitions of a
12-byte fixed record followed by `tos_count * 4` skipped bytes. -/
def parseRouterLinks (lsa_body : Bytes) (link_offset : Nat) (count : Nat)
    (acc : List OspfRouterLink) : Except DecodeError (List OspfRouterLink) :=
  match count with
  | 0 => .ok acc
  | c + 1 =>
    if lsa_body.length < link_offset + 12 then
      .error (.ospfError "Truncated Router-LSA link")
    else
      match ipv4OfBytes (pySlice lsa_body link_offset (link_offset + 4)),
            ipv4OfBytes (pySlice lsa_body (link_offset + 4) (link_offset + 8)),
            pyByte lsa_body (link_offset + 8),
            pyByte lsa_body (link_offset + 9),
            readU16 lsa_body (link_offset + 10) with
      | some link_id, some link_data, some link_type, some tos_count, some metric =>
        parseRouterLinks lsa_body (link_offset + 12 + tos_count * 4) c
          (acc ++ [⟨link_id, link_data, link_type, metric⟩])
      | _, _, _, _, _ => .error (.pyError "IndexError")

/-- One iteration of the LSA loop in `parse_ospf_lsas`: consume a 20-byte
header plus `lsa_length - 20` body bytes; a non-Router LSA (`ls_type ≠ 1`)
yields no result.  In the source the cursor moves by `20` and then by
`lsa_length - 20` over signed ints, i.e. in total from `offset` to
`offset + lsa_length`; likewise the body slice stop `offset + 20 +
(lsa_length - 20)` is `offset + lsa_length`. -/
def parse_ospf_lsa_step (payload : Bytes) (offset : Nat) :
    Except DecodeError (Option OspfRouterLsa × Nat) :=
  if payload.length < offset + 20 then .error (.ospfError "Truncated LSA header")
  else
    let lsa_header := pySlice payload offset (offset + 20)
    match pyByte lsa_header 3,
          ipv4OfBytes (pySlice lsa_header 4 8),
          ipv4OfBytes (pySlice lsa_header 8 12),
          readU16 lsa_header 18 with
    | some ls_type, some link_state_id, some advertising_router, some lsa_length =>
      if payload.length + 20 < offset + 20 + lsa_length then
        .error (.ospfError "Truncated LSA body")
      else
        let lsa_body := pySlice payload (offset + 20) (offset + lsa_length)
        if ls_type ≠ 1 then .ok (none, offset + lsa_length)
        else
          if lsa_body.length < 4 then .error (.ospfError "Router-LSA body too small")
          else
            match readU16 lsa_body 2 with
            | none => .error (.pyError "struct.error")
            | some num_links =>
              match parseRouterLinks lsa_body 4 num_links [] with
              | .error e => .error e
              | .ok links =>
                .ok (some ⟨advertising_router, link_state_id, links⟩, offset + lsa_length)
    | _, _, _, _ => .error (.pyError "IndexError")

/-- LSA loop of `parse_ospf_lsas`: `lsa_count` iterations. -/
def parseOspfLsaLoop (payload : Bytes) : Nat → Nat → List OspfRouterLsa →
    Except DecodeError (List OspfRouterLsa)
  | 0, _, acc => .ok acc
  | count + 1, offset, acc =>
    match parse_ospf_lsa_step payload offset with
    | .error e => .error e
    | .ok (none, offset') => parseOspfLsaLoop payload count offset' acc
    | .ok (some lsa, offset') => parseOspfLsaLoop payload count offset' (acc ++ [lsa])

/-- `parse_ospf_lsas` (exposed as `decode_ospf_lsas`). -/
def parse_ospf_lsas (payload : Bytes) : Except DecodeError (List OspfRouterLsa) :=
  if payload.length < 28 then .error (.ospfError "Payload too small for OSPF header")
  else
    match pyByte payload 0, pyByte payload 1, readU16 payload 2 with
    | some version, some packet_type, some packet_length =>
      if version ≠ 2 then
        .error (.ospfError ("Unsupported OSPF version " ++ toString version))
      else if packet_type ≠ 4 then
        .error (.ospfError ("Unsupported OSPF packet type " ++ toString packet_type))
      else if packet_length ≠ payload.length then
        .error (.ospfError "OSPF length mismatch")
      else
        match readU32 payload 24 with
        | none => .error (.pyError "struct.error")
        | some lsa_count => parseOspfLsaLoop payload lsa_count 28 []
    | _, _, _ => .error (.pyError "IndexError")

/-! ## Topology graph (`topology.py`) -/

/-- Fields of `packets.Packet` consumed by `NetworkTopology.ingest_packet`
(the remaining fields — timestamps, lengths, metrics, metadata — are not
read by the topology core). -/
structure Packet where
  src_ip : String
  dst_ip : String
  payload_protocol : Option String
  payload : Bytes
deriving DecidableEq, Repr

/-- `LinkMetadata`; Python's float metric is embedded as `ℚ` (the only
operations applied to it are `min` and comparisons, which on the finite
values the program manipulates agree with the rational order). -/
structure LinkMetadata where
  metric : ℚ := 1
  protocols : Finset String := ∅
deriving DecidableEq

/-- `NetworkTopology` state: node set, insertion-ordered directed-link
map, insertion-ordered prefix-origin map. -/
structure NetworkTopology where
  nodes : Finset String := ∅
  links : List ((String × String) × LinkMetadata) := []
  prefix_origins : List (String × String) := []
deriving DecidableEq

def emptyTopology : NetworkTopology := {}

/-- Association-list lookup (Python dict access by key). -/
def lookupAssoc {β : Type} (l : List ((String × String) × β)) (k : String × String) :
    Option β :=
  (l.find? (fun e => e.1 = k)).map (·.2)

/-- Association-list store: overwrite in place, or append (Python dict
insertion order). -/
def setAssoc {β : Type} : List ((String × String) × β) → (String × String) → β →
    List ((String × String) × β)
  | [], k, v => [(k, v)]
  | (k', v') :: rest, k, v =>
    if k' = k then (k, v) :: rest else (k', v') :: setAssoc rest k v

def lookupStr (l : List (String × String)) (k : String) : Option String :=
  (l.find? (fun e => e.1 = k)).map (·.2)

def setStr : List (String × String) → String → String → List (String × String)
  | [], k, v => [(k, v)]
  | (k', v') :: rest, k, v =>
    if k' = k then (k, v) :: rest else (k', v') :: setStr rest k v

/-- `NetworkTopology.add_link`: `self.links[(src, dst)]` is a defaultdict
access yielding a fresh `LinkMetadata()` when the key is absent. -/
def add_link (t : NetworkTopology) (src dst : String) (metric : ℚ) (protocol : String) :
    NetworkTopology :=
  let key := (src, dst)
  let metadata := (lookupAssoc t.links key).getD {}
  let metadata' : LinkMetadata :=
    { metric := if metadata.protocols ≠ ∅ then min metadata.metric metric else metric,
      protocols := insert protocol metadata.protocols }
  { t with nodes := insert src (insert dst t.nodes),
           links := setAssoc t.links key metadata' }

/-- `NetworkTopology.add_prefix_origin`. -/
def add_prefix_origin (t : NetworkTopology) (pfx : String) (next_hop : Option String) :
    NetworkTopology :=
  match next_hop with
  | none => t
  | some nh => { t with prefix_origins := setStr t.prefix_origins pfx nh }

/-- The next-hop argument the Python code passes to `add_prefix_origin`
(`update.next_hop`, an `Optional[str]` on parser output). -/
def BgpUpdate.nextHopStr (u : BgpUpdate) : Option String :=
  (u.next_hop).map AttrValue.asStr

/-- `NetworkTopology.apply_bgp_update`. -/
def apply_bgp_update (t : NetworkTopology) (source_router : String) (u : BgpUpdate) :
    NetworkTopology :=
  let t1 := { t with nodes := insert source_router t.nodes }
  let t2 :=
    match u.next_hop with
    | some v => if v.truthy then add_link t1 source_router v.asStr 1 "BGP" else t1
    | none => t1
  u.nlri.foldl (fun s pfx => add_prefix_origin s pfx u.nextHopStr) t2

/-- `NetworkTopology.apply_ospf_lsa`: each link's cost is
`float(max(1, link.metric))`. -/
def apply_ospf_lsa (t : NetworkTopology) (lsa : OspfRouterLsa) : NetworkTopology :=
  let t1 := { t with nodes := insert lsa.advertising_router t.nodes }
  lsa.links.foldl
    (fun s link =>
      add_link s lsa.advertising_router link.link_id ((max 1 link.metric : Nat) : ℚ) "OSPF")
    t1

/-- `NetworkTopology.ingest_packet`: a decode failure propagates (the
state is read only after a successful decode, so a failing call leaves the
topology untouched); an unrecognized payload-protocol tag is a no-op. -/
def ingest_packet (t : NetworkTopology) (p : Packet) : Except DecodeError NetworkTopology :=
  if p.payload_protocol = some "BGP" then
    (parse_bgp_update p.payload).map (fun u => apply_bgp_update t p.src_ip u)
  else if p.payload_protocol = some "OSPF" then
    (parse_ospf_lsas p.payload).map (fun lsas => lsas.foldl apply_ospf_lsa t)
  else .ok t

/-! ## `NetworkTopology.shortest_path`

The Python loop pops from a `heapq` of `(cost, node, path)` tuples; a pop
returns a tuple that is minimal in the tuple order (float, then string,
then list of strings, lexicographically).  Distinct queue entries that
compare equal are identical tuples, so "some minimal element" determines
the result; `popMin` removes the first minimal entry.  The loop need not
terminate (the tentative-cost map can be driven down forever by negative
cycles), so the recursion carries explicit fuel: `none` means the given
fuel was exhausted, `some r` means the loop finished with result `r`. -/

/-- Python `list` lexicographic comparison for `List String`. -/
def listStrLt : List String → List String → Bool
  | [], [] => false
  | [], _ :: _ => true
  | _ :: _, [] => false
  | a :: as, b :: bs => if a < b then true else if b < a then false else listStrLt as bs

/-- A heap entry `(new_cost, neighbour, path)`. -/
structure QEntry where
  cost : ℚ
  node : String
  path : List String
deriving DecidableEq, Repr

/-- Python tuple `<` on `(cost, node, path)`. -/
def qLt (a b : QEntry) : Bool :=
  decide (a.cost < b.cost) ||
    (decide (a.cost = b.cost) &&
      (decide (a.node < b.node) || (decide (a.node = b.node) && listStrLt a.path b.path)))

/-- `heapq.heappop`: remove and return a minimal entry (the first one
among equals; ties between distinct entries do not occur in the tuple
order, so any choice yields the same tuple). -/
def popMin : List QEntry → Option (QEntry × List QEntry)
  | [] => none
  | e :: es =>
    match popMin es with
    | none => some (e, [])
    | some (m, rest) => if qLt m e then some (m, e :: rest) else some (e, es)

def visitedLookup (visited : List (String × ℚ)) (n : String) : Option ℚ :=
  (visited.find? (fun e => e.1 = n)).map (·.2)

def visitedSet : List (String × ℚ) → String → ℚ → List (String × ℚ)
  | [], k, v => [(k, v)]
  | (k', v') :: rest, k, v =>
    if k' = k then (k, v) :: rest else (k', v') :: visitedSet rest k v

/-- `NetworkTopology._neighbours_with_metadata`. -/
def neighboursWithMetadata (links : List ((String × String) × LinkMetadata))
    (node : String) : List (String × LinkMetadata) :=
  links.filterMap (fun e => if e.1.1 = node then some (e.1.2, e.2) else none)

/-- One neighbour relaxation of the inner `for neighbour, metadata in ...`
loop: push `(new_cost, neighbour, path + [neighbour])` and lower the
tentative cost when the neighbour is new or strictly improved. -/
def relaxStep (cost : ℚ) (path : List String)
    (st : List QEntry × List (String × ℚ)) (nb : String × LinkMetadata) :
    List QEntry × List (String × ℚ) :=
  let new_cost := cost + nb.2.metric
  let push : Bool :=
    match visitedLookup st.2 nb.1 with
    | none => true
    | some d => decide (new_cost < d)
  if push = true then
    (st.1 ++ [QEntry.mk new_cost nb.1 (path ++ [nb.1])], visitedSet st.2 nb.1 new_cost)
  else st

/-- The inner `for neighbour, metadata in ...` loop: relax each outgoing
edge of the popped entry, collecting pushes and updating the tentative
cost map. -/
def relaxAll (links : List ((String × String) × LinkMetadata)) (cost : ℚ)
    (node : String) (path : List String) (queue : List QEntry)
    (visited : List (String × ℚ)) : List QEntry × List (String × ℚ) :=
  (neighboursWithMetadata links node).foldl (relaxStep cost path) (queue, visited)

/-- The `while queue:` loop of `shortest_path`, with fuel. -/
def dijkstraLoop (links : List ((String × String) × LinkMetadata)) (dst : String) :
    Nat → List QEntry → List (String × ℚ) → Option (Option (List String))
  | 0, _, _ => none
  | fuel + 1, queue, visited =>
    match popMin queue with
    | none => some none
    | some (e, rest) =>
      if e.node = dst then some (some e.path)
      else
        let st := relaxAll links e.cost e.node e.path rest visited
        dijkstraLoop links dst fuel st.1 st.2

/-- `NetworkTopology.shortest_path` with explicit fuel for the search
loop: `some r` is the Python return value `r`, `none` means the loop was
cut off before finishing. -/
def shortest_path (t : NetworkTopology) (src dst : String) (fuel : Nat) :
    Option (Option (List String)) :=
  if src ∈ t.nodes ∧ dst ∈ t.nodes then
    dijkstraLoop t.links dst fuel [⟨0, src, [src]⟩] [(src, 0)]
  else some none

/-! ## Encoders (`tests/conftest.py`)

`build_bgp_update(prefix, next_hop)` receives `"p0.p1.p2.p3/n"` and
`"h0.h1.h2.h3"`; the embedding takes the nine numeric components
directly.  `ipaddress.IPv4Address(...).packed[: (n + 7) // 8]` keeps the
first `⌈n/8⌉` address bytes. -/

def build_bgp_update (p0 p1 p2 p3 n h0 h1 h2 h3 : Nat) : Bytes :=
  let marker := List.replicate 16 255
  let withdrawn_routes : Bytes := [0, 0]
  let origin_attr : Bytes := [0x40, 1, 1, 0]
  let as_path_value : Bytes := [2, 2, 253, 233, 253, 234]
  let as_path_attr : Bytes := [0x40, 2, 6] ++ as_path_value
  let next_hop_attr : Bytes := [0x40, 3, 4] ++ [h0, h1, h2, h3]
  let med_attr : Bytes := [0x80, 4, 4] ++ [0, 0, 0, 25]
  let path_attributes := origin_attr ++ as_path_attr ++ next_hop_attr ++ med_attr
  let total_path_len : Bytes := [0, 27]
  let prefix_bytes := [p0, p1, p2, p3].take ((n + 7) / 8)
  let nlri := n :: prefix_bytes
  let length := 19 + 2 + 2 + 27 + (1 + (n + 7) / 8)
  let header := marker ++ [length / 256, length % 256, 2]
  header ++ withdrawn_routes ++ total_path_len ++ path_attributes ++ nlri

/-- `build_ospf_router_lsa(advertising_router, neighbor, metric)` with the
two addresses given by their four byte components. -/
def build_ospf_router_lsa (a0 a1 a2 a3 b0 b1 b2 b3 m : Nat) : Bytes :=
  let lsa_body : Bytes :=
    [0, 0] ++ [0, 1] ++ [b0, b1, b2, b3] ++ [255, 255, 255, 0] ++ [1, 0] ++ [m / 256, m % 256]
  let lsa_header : Bytes :=
    [0, 1, 0, 1] ++ [b0, b1, b2, b3] ++ [a0, a1, a2, a3] ++ [128, 0, 0, 1] ++ [0, 0] ++ [0, 36]
  let ls_update_body : Bytes := [0, 0, 0, 1] ++ lsa_header ++ lsa_body
  let ospf_header : Bytes :=
    [2, 4, 0, 64] ++ [a0, a1, a2, a3] ++ [0, 0, 0, 0] ++ [0, 0] ++ [0, 0] ++
      List.replicate 8 0
  ospf_header ++ ls_update_body

/-! ## Operation sequences over the topology

The mutators reachable from outside are `add_link`, `apply_bgp_update`,
`apply_ospf_lsa` and `ingest_packet`.  A `TopoOp` is one such call;
`runOps` plays a call sequence against the empty topology (a failing
`ingest_packet` mutates nothing, so the state simply carries over). -/

/-- Parser-produced updates store NEXT_HOP values as strings; an update
handed to `apply_bgp_update` whose type-3 attribute held any other object
would crash Python's dict/set operations instead of mutating state. -/
def BgpUpdate.wf (u : BgpUpdate) : Prop :=
  ∀ a ∈ u.path_attributes, a.type_code = 3 → ∃ s, a.value = AttrValue.str s

inductive TopoOp where
  | addLink (src dst : String) (metric : ℚ) (protocol : String)
  | applyBgp (source_router : String) (update : BgpUpdate)
  | applyOspf (lsa : OspfRouterLsa)
  | ingestPkt (p : Packet)

def TopoOp.wf : TopoOp → Prop
  | .applyBgp _ u => u.wf
  | _ => True

def runOp (t : NetworkTopology) : TopoOp → NetworkTopology
  | .addLink src dst metric protocol => add_link t src dst metric protocol
  | .applyBgp source_router u => apply_bgp_update t source_router u
  | .applyOspf lsa => apply_ospf_lsa t lsa
  | .ingestPkt p =>
    match ingest_packet t p with
    | .ok t' => t'
    | .error _ => t

def runOps (ops : List TopoOp) : NetworkTopology := ops.foldl runOp emptyTopology

/-- The (src, dst, metric) assertions a BGP update from `source_router`
makes on the link map. -/
def bgpAsserts (source_router : String) (u : BgpUpdate) : List (String × String × ℚ) :=
  match u.next_hop with
  | some v => if v.truthy then [(source_router, v.asStr, 1)] else []
  | none => []

/-- The (src, dst, metric) assertions an applied Router-LSA makes. -/
def ospfAsserts (lsa : OspfRouterLsa) : List (String × String × ℚ) :=
  lsa.links.map (fun link => (lsa.advertising_router, link.link_id, ((max 1 link.metric : Nat) : ℚ)))

/-- All (src, dst, metric) link assertions an operation performs. -/
def opAsserts : TopoOp → List (String × String × ℚ)
  | .addLink src dst metric _ => [(src, dst, metric)]
  | .applyBgp source_router u => bgpAsserts source_router u
  | .applyOspf lsa => ospfAsserts lsa
  | .ingestPkt p =>
    if p.payload_protocol = some "BGP" then
      match parse_bgp_update p.payload with
      | .ok u => bgpAsserts p.src_ip u
      | .error _ => []
    else if p.payload_protocol = some "OSPF" then
      match parse_ospf_lsas p.payload with
      | .ok lsas => lsas.flatMap ospfAsserts
      | .error _ => []
    else []

/-- The metrics asserted for the ordered pair `(s, d)` by a history of
assertions, oldest first. -/
def assertedForH (H : List (String × String × ℚ)) (s d : String) : List ℚ :=
  H.filterMap (fun a => if a.1 = s ∧ a.2.1 = d then some a.2.2 else none)

/-- The metrics ever asserted for `(s, d)` across an operation sequence. -/
def assertedFor (ops : List TopoOp) (s d : String) : List ℚ :=
  assertedForH (ops.flatMap opAsserts) s d

/-- Node names an operation contributes: endpoints of asserted links plus
the advertising router of the advertisement being applied. -/
def bgpNodeSources (source_router : String) (u : BgpUpdate) : Finset String :=
  match u.next_hop with
  | some v => if v.truthy then {source_router, v.asStr} else {source_router}
  | none => {source_router}

def ospfNodeSources (lsa : OspfRouterLsa) : Finset String :=
  insert lsa.advertising_router
    (lsa.links.foldl (fun acc link => insert link.link_id acc) ∅)

def opNodeSources : TopoOp → Finset String
  | .addLink src dst _ _ => {src, dst}
  | .applyBgp source_router u => bgpNodeSources source_router u
  | .applyOspf lsa => ospfNodeSources lsa
  | .ingestPkt p =>
    if p.payload_protocol = some "BGP" then
      match parse_bgp_update p.payload with
      | .ok u => bgpNodeSources p.src_ip u
      | .error _ => ∅
    else if p.payload_protocol = some "OSPF" then
      match parse_ospf_lsas p.payload with
      | .ok lsas => lsas.foldl (fun acc lsa => acc ∪ ospfNodeSources lsa) ∅
      | .error _ => ∅
    else ∅

/-! ## Walks and walk costs (for the shortest-path specification) -/

/-- `Walk links a c p`: `p` is a node sequence from `a` to `c` each of
whose consecutive pairs is a directed link of the map. -/
inductive Walk (links : List ((String × String) × LinkMetadata)) :
    String → String → List String → Prop
  | single (a : String) : Walk links a a [a]
  | cons {a b c : String} {p : List String} (md : LinkMetadata)
      (hedge : lookupAssoc links (a, b) = some md)
      (hw : Walk links b c p) : Walk links a c (a :: p)

/-- Total metric of a node sequence over the directed-link map (`0` for a
consecutive pair that is not a link; on walks every pair is one). -/
def walkCost (links : List ((String × String) × LinkMetadata)) : List String → ℚ
  | a :: b :: rest =>
    (match lookupAssoc links (a, b) with
     | some md => md.metric
     | none => 0) + walkCost links (b :: rest)
  | _ => 0

/-- All link metrics in the map are nonnegative. -/
def NonnegLinks (links : List ((String × String) × LinkMetadata)) : Prop :=
  ∀ e ∈ links, 0 ≤ e.2.metric

/-- The link map has no duplicate ordered-pair keys (always true of the
Python dict this list embeds). -/
def NodupKeys (links : List ((String × String) × LinkMetadata)) : Prop :=
  (links.map Prod.fst).Nodup

/-- Queue-entry invariant of the search loop: each entry carries a walk
from the source to its node whose cost is the entry cost, and the node's
tentative cost is defined and at most the entry cost. -/
def QInv (links : List ((String × String) × LinkMetadata)) (src : String)
    (queue : List QEntry) (visited : List (String × ℚ)) : Prop :=
  ∀ e ∈ queue, Walk links src e.node e.path ∧ walkCost links e.path = e.cost ∧
    ∃ d, visitedLookup visited e.node = some d ∧ d ≤ e.cost

/-- Every tentative cost is attained by some walk from the source. -/
def VInv (links : List ((String × String) × LinkMetadata)) (src : String)
    (visited : List (String × ℚ)) : Prop :=
  ∀ v d, visitedLookup visited v = some d → ∃ p, Walk links src v p ∧ walkCost links p = d

/-- Node `v` has been relaxed at level `d`: every outgoing edge of `v`
leads to a node whose tentative cost is at most `d` plus the edge
metric. -/
def RelaxedAt (links : List ((String × String) × LinkMetadata))
    (visited : List (String × ℚ)) (v : String) (d : ℚ) : Prop :=
  ∀ w md, lookupAssoc links (v, w) = some md →
    ∃ dw, visitedLookup visited w = some dw ∧ dw ≤ d + md.metric

/-- Every node with a tentative cost either still has its defining entry
(same node, same cost) in the queue, or has already been relaxed at its
tentative cost. -/
def I6Inv (links : List ((String × String) × LinkMetadata))
    (queue : List QEntry) (visited : List (String × ℚ)) : Prop :=
  ∀ v d, visitedLookup visited v = some d →
    (∃ e ∈ queue, e.node = v ∧ e.cost = d) ∨ RelaxedAt links visited v d

/-- The destination's defining entry is never consumed without
returning: while the loop is running, a defined tentative cost at `dst`
has a queue entry of exactly that cost. -/
def DstInv (dst : String) (queue : List QEntry) (visited : List (String × ℚ)) : Prop :=
  ∀ d, visitedLookup visited dst = some d → ∃ e ∈ queue, e.node = dst ∧ e.cost = d

/-- The full loop invariant of `shortest_path`'s search. -/
def DijkstraInv (links : List ((String × String) × LinkMetadata)) (src dst : String)
    (queue : List QEntry) (visited : List (String × ℚ)) : Prop :=
  QInv links src queue visited ∧ VInv links src visited ∧
  visitedLookup visited src = some 0 ∧ I6Inv links queue visited ∧
  DstInv dst queue visited

/-- What the relaxation fold starting from `(q, vis)` guarantees about its
result state `st`, with `x` the popped node, `c` the popped cost and `ns`
the neighbour list being folded over. -/
def RelaxOut (links : List ((String × String) × LinkMetadata)) (src dst x : String)
    (c : ℚ) (ns : List (String × LinkMetadata)) (q : List QEntry)
    (vis : List (String × ℚ)) (st : List QEntry × List (String × ℚ)) : Prop :=
  QInv links src st.1 st.2 ∧ VInv links src st.2 ∧
  visitedLookup st.2 src = some 0 ∧
  (∀ v d, visitedLookup st.2 v = some d → v ≠ x →
    (∃ e ∈ st.1, e.node = v ∧ e.cost = d) ∨ RelaxedAt links st.2 v d) ∧
  DstInv dst st.1 st.2 ∧
  (∀ nb ∈ ns, ∃ dw, visitedLookup st.2 nb.1 = some dw ∧ dw ≤ c + nb.2.metric) ∧
  (∀ v d, visitedLookup vis v = some d → ∃ d', visitedLookup st.2 v = some d' ∧ d' ≤ d) ∧
  (∀ y ∈ q, y ∈ st.1) ∧
  visitedLookup st.2 x = visitedLookup vis x

/-- A topology state with one negative link metric, built through the
public `add_link` API (whose `metric` parameter is unrestricted): nodes
`s`, `a`, `t`, direct link `s→t` of metric 2, and a two-hop route
`s→a→t` of total metric 3 + (−2) = 1. -/
def c3NegTopo : NetworkTopology :=
  add_link (add_link (add_link emptyTopology "s" "t" 2 "static") "s" "a" 3 "static")
    "a" "t" (-2) "static"

/-- The link-map/assertion-history invariant behind C2: a pair is in the
map exactly when some operation asserted it, its protocol set is then
nonempty, and its metric is the minimum (as the running `min`-fold the
code computes) of every metric ever asserted for that ordered pair. -/
def LinksInv (links : List ((String × String) × LinkMetadata))
    (H : List (String × String × ℚ)) : Prop :=
  ∀ s d, (lookupAssoc links (s, d) = none → assertedForH H s d = []) ∧
    (∀ md, lookupAssoc links (s, d) = some md →
      md.protocols ≠ ∅ ∧
      ∃ m ms, assertedForH H s d = m :: ms ∧ md.metric = ms.foldl min m)

/-- Growth of the link map between two states: no pair disappears and no
protocol set shrinks. -/
def LinksMono (t t' : NetworkTopology) : Prop :=
  ∀ k md, lookupAssoc t.links k = some md →
    ∃ md', lookupAssoc t'.links k = some md' ∧ md.protocols ⊆ md'.protocols

/-! # Theorems -/

set_option maxRecDepth 8000

/-! ## Association-list helper lemmas -/

theorem lookupAssoc_setAssoc_self {β : Type} (l : List ((String × String) × β))
    (k : String × String) (v : β) : lookupAssoc (setAssoc l k v) k = some v := by
  induction l with
  | nil => simp [setAssoc, lookupAssoc]
  | cons e rest ih =>
    by_cases h : e.1 = k
    · simp [setAssoc, lookupAssoc, h]
    · simpa [setAssoc, lookupAssoc, h, List.find?] using ih

theorem lookupAssoc_setAssoc_ne {β : Type} (l : List ((String × String) × β))
    (k k' : String × String) (v : β) (h : k' ≠ k) :
    lookupAssoc (setAssoc l k v) k' = lookupAssoc l k' := by
  induction l with
  | nil => simp [setAssoc, lookupAssoc, List.find?, Ne.symm h]
  | cons e rest ih =>
    by_cases he : e.1 = k
    · by_cases he' : e.1 = k'
      · exact absurd (he'.symm.trans he) h
      · simp [setAssoc, lookupAssoc, he, he', List.find?, Ne.symm h]
    · by_cases he' : e.1 = k'
      · simp [setAssoc, lookupAssoc, he, he', List.find?, h]
      · simpa [setAssoc, lookupAssoc, he, he', List.find?, h] using ih

/-- C10: the BGP NLRI loop only checks `offset < end` before each entry
and never that it lands exactly on the region boundary: on this buffer the
last withdrawn-routes entry declares 3 address bytes with only 1 left in
the declared 2-byte region, the loop consumes through offset 25 — two
bytes past the region end 23 — without any decode failure, and the
path-attribute length field is then read from the overshot cursor
position 25 (where it finds 0), letting the whole decode succeed on a
misaligned layout. -/
theorem c10_nlri_overrun :
    parse_nlri (List.replicate 16 255 ++ [0, 27, 2, 0, 2, 24, 10, 0, 0, 0, 0]) 21 2 =
      .ok (["10.0.0.0/24"], 25) ∧
    21 + 2 < 25 ∧
    readU16 (List.replicate 16 255 ++ [0, 27, 2, 0, 2, 24, 10, 0, 0, 0, 0]) 25 = some 0 ∧
    parse_bgp_update (List.replicate 16 255 ++ [0, 27, 2, 0, 2, 24, 10, 0, 0, 0, 0]) =
      .ok ⟨["10.0.0.0/24"], [], []⟩ := by
  refine ⟨?_, by norm_num, by decide, ?_⟩
  · simp [parse_nlri, parseNlriLoop, readU16, pySlice, pyByte, ljust4, ipv4OfBytes, ipv4Str]
    decide
  · simp [parse_bgp_update, parse_nlri, parseNlriLoop, parse_path_attributes,
      parsePathAttrsLoop, readU16, pySlice, pyByte, ljust4, ipv4OfBytes, ipv4Str]
    decide

/-! ## C5: failure kinds of `parse_bgp_update` -/

theorem asPathValues_no_ospf (raw : Bytes) (offset count : Nat) (acc : List Nat) (m : String) :
    asPathValues raw offset count acc ≠ .error (.ospfError m) := by
  induction count generalizing offset acc with
  | zero => simp [asPathValues]
  | succ c ih =>
    simp only [asPathValues]
    split
    · simp
    · split
      · exact ih _ _
      · simp

theorem asPathSegments_no_ospf (raw : Bytes) (offset : Nat) (acc : List Nat) (m : String) :
    asPathSegments raw offset acc ≠ .error (.ospfError m) := by
  induction offset, acc using asPathSegments.induct raw with
  | case1 offset acc h1 h2 =>
    rw [asPathSegments.eq_def]
    simp [dif_pos h1, if_pos h2]
  | case2 offset acc h1 h2 st sl hb2 hb1 hst acc' hvals ih =>
    rw [asPathSegments.eq_def]
    simp only [dif_pos h1, if_neg h2, hb1, hb2, if_pos hst, hvals]
    exact ih
  | case3 offset acc h1 h2 st sl hb2 hb1 hst e hvals =>
    rw [asPathSegments.eq_def]
    simp only [dif_pos h1, if_neg h2, hb1, hb2, if_pos hst, hvals]
    intro hcontra
    injection hcontra with he
    rw [he] at hvals
    exact asPathValues_no_ospf raw (offset + 2) sl acc m hvals
  | case4 offset acc h1 h2 st sl hb2 hb1 hst =>
    rw [asPathSegments.eq_def]
    simp only [dif_pos h1, if_neg h2, hb1, hb2, if_neg hst]
    simp
  | case5 offset acc h1 h2 hcontra =>
    exfalso
    have h1' : offset + 1 < raw.length := by omega
    exact hcontra _ _ (List.get?_eq_get h1) (List.get?_eq_get h1')
  | case6 offset acc h1 =>
    rw [asPathSegments.eq_def]
    simp [dif_neg h1]

theorem decode_attribute_value_no_ospf (tc : Nat) (raw : Bytes) (m : String) :
    decode_attribute_value tc raw ≠ .error (.ospfError m) := by
  by_cases h1 : tc = 1
  · simp only [decode_attribute_value, if_pos h1]
    split <;> simp
  by_cases h2 : tc = 2
  · simp only [decode_attribute_value, if_neg h1, if_pos h2]
    cases h : asPathSegments raw 0 [] with
    | ok l => simp [Except.map]
    | error e =>
      simp only [Except.map]
      intro hc
      injection hc with he
      rw [he] at h
      exact asPathSegments_no_ospf raw 0 [] m h
  by_cases h3 : tc = 3
  · simp only [decode_attribute_value, if_neg h1, if_neg h2, if_pos h3]
    split
    · simp
    · split <;> simp
  by_cases h4 : tc = 4
  · simp only [decode_attribute_value, if_neg h1, if_neg h2, if_neg h3, if_pos h4]
    split
    · simp
    · split <;> simp
  · simp [decode_attribute_value, h1, h2, h3, h4]

theorem parseNlriLoop_no_ospf (data : Bytes) (offset e : Nat) (acc : List String)
    (m : String) : parseNlriLoop data offset e acc ≠ .error (.ospfError m) := by
  have H : ∀ gas offset acc, e - offset ≤ gas →
      parseNlriLoop data offset e acc ≠ .error (.ospfError m) := by
    intro gas
    induction gas with
    | zero =>
      intro offset acc hle
      rw [parseNlriLoop.eq_def]
      have hlt : ¬offset < e := by omega
      simp [dif_neg hlt]
    | succ g ih =>
      intro offset acc hle
      rw [parseNlriLoop.eq_def]
      by_cases h1 : offset < e
      · simp only [dif_pos h1]
        split
        · simp
        · split
          · simp
          · exact ih _ _ (by omega)
      · simp [dif_neg h1]
  exact H (e - offset) offset acc le_rfl

theorem parsePathAttrsLoop_no_ospf (data : Bytes) (offset e : Nat)
    (acc : List BgpPathAttribute) (m : String) :
    parsePathAttrsLoop data offset e acc ≠ .error (.ospfError m) := by
  have H : ∀ gas offset acc, e - offset ≤ gas →
      parsePathAttrsLoop data offset e acc ≠ .error (.ospfError m) := by
    intro gas
    induction gas with
    | zero =>
      intro offset acc hle
      rw [parsePathAttrsLoop.eq_def]
      have hlt : ¬offset < e := by omega
      simp only [dif_neg hlt]
      split <;> simp
    | succ g ih =>
      intro offset acc hle
      rw [parsePathAttrsLoop.eq_def]
      by_cases h1 : offset < e
      · simp only [dif_pos h1]
        split
        · simp
        · split
          · split
            · split
              · simp
              · split
                · simp
                · split
                  · simp
                  · split
                    · rename_i err hdec
                      intro hc
                      injection hc with he
                      rw [he] at hdec
                      exact decode_attribute_value_no_ospf _ _ m hdec
                    · exact ih _ _ (by omega)
            · split
              · simp
              · split
                · simp
                · split
                  · rename_i err hdec
                    intro hc
                    injection hc with he
                    rw [he] at hdec
                    exact decode_attribute_value_no_ospf _ _ m hdec
                  · exact ih _ _ (by omega)
          · simp
      · simp only [dif_neg h1]
        split <;> simp
  exact H (e - offset) offset acc le_rfl

/-- C5 counterexample: a 23-byte buffer with a valid header whose
declared withdrawn-routes region (2 bytes) ends exactly at the end of the
buffer.  The decode fails, but with the embedded `struct.error` (the
2-byte read of the path-attribute length from the empty slice
`payload[23:25]`), not with the BGP-decode-error kind: the claim that the
single BGP-decode-error kind is the only failure that can escape is
false. -/
theorem c5_counterexample :
    parse_bgp_update (List.replicate 16 255 ++ [0, 23, 2, 0, 2, 8, 0]) =
      .error (.pyError "struct.error") := by
  simp [parse_bgp_update, parse_nlri, parseNlriLoop, readU16, pySlice, pyByte, ljust4,
    ipv4OfBytes, ipv4Str]

/-- C5 (amended): for every input buffer, `decode_bgp_update` either
returns a `BgpUpdate`, or fails with the BGP-decode-error kind carrying a
reason string, or fails with an uncaught Python runtime error
(IndexError / struct.error / AddressValueError) raised by an out-of-range
read; it never fails with the OSPF decoder's error kind, and no partial
structure is returned on failure (a failing decode returns no update at
all). -/
theorem c5_amended_failure_kinds (payload : Bytes) :
    (∃ u, parse_bgp_update payload = .ok u) ∨
    (∃ m, parse_bgp_update payload = .error (.bgpError m)) ∨
    (∃ m, parse_bgp_update payload = .error (.pyError m)) := by
  have hno : ∀ m, parse_bgp_update payload ≠ .error (.ospfError m) := by
    intro m
    unfold parse_bgp_update
    split
    · simp
    split
    · simp
    split
    · simp
    split
    · simp
    split
    · simp
    split
    · simp
    split
    · simp
    split
    · rename_i e hnlri
      intro hc
      injection hc with he
      rw [he] at hnlri
      exact parseNlriLoop_no_ospf _ _ _ _ m hnlri
    split
    · simp
    split
    · rename_i e hattrs
      intro hc
      injection hc with he
      rw [he] at hattrs
      exact parsePathAttrsLoop_no_ospf _ _ _ _ m hattrs
    split
    · rename_i e hnlri
      intro hc
      injection hc with he
      rw [he] at hnlri
      exact parseNlriLoop_no_ospf _ _ _ _ m hnlri
    split
    · simp
    · simp
  cases hres : parse_bgp_update payload with
  | ok u => exact .inl ⟨u, rfl⟩
  | error err =>
    cases err with
    | bgpError m => exact .inr (.inl ⟨m, rfl⟩)
    | pyError m => exact .inr (.inr ⟨m, rfl⟩)
    | ospfError m => exact absurd hres (hno m)

/-- C7: `ingest_packet` with a payload-protocol tag other than "BGP" or
"OSPF" returns the topology unchanged and raises nothing; with tag "BGP"
or "OSPF" and a failing payload decode, the decoder's error propagates
unchanged to the caller, and — the decode running before any mutation —
no part of the failed decode is applied (the embedding returns no new
state at all on error). -/
theorem c7_ingest_error_handling :
    (∀ t p, p.payload_protocol ≠ some "BGP" → p.payload_protocol ≠ some "OSPF" →
      ingest_packet t p = .ok t) ∧
    (∀ t p e, p.payload_protocol = some "BGP" →
      parse_bgp_update p.payload = .error e → ingest_packet t p = .error e) ∧
    (∀ t p e, p.payload_protocol = some "OSPF" →
      parse_ospf_lsas p.payload = .error e → ingest_packet t p = .error e) := by
  refine ⟨?_, ?_, ?_⟩
  · intro t p h1 h2
    simp [ingest_packet, h1, h2]
  · intro t p e h1 h2
    simp [ingest_packet, h1, h2, Except.map]
  · intro t p e h1 h2
    simp [ingest_packet, h1, h2, Except.map]

/-- C7 witness: an "ICMP"-tagged packet is ignored; a "BGP"-tagged packet
with an empty payload propagates the header-size decode error. -/
theorem c7_witness :
    ingest_packet emptyTopology ⟨"198.51.100.9", "203.0.113.9", some "ICMP", []⟩ =
      .ok emptyTopology ∧
    ingest_packet emptyTopology ⟨"198.51.100.9", "203.0.113.9", some "BGP", []⟩ =
      .error (.bgpError "Payload too small for BGP header") :=
  ⟨c7_ingest_error_handling.1 _ _ (by simp) (by simp),
   c7_ingest_error_handling.2.1 _ _ _ rfl (by simp [parse_bgp_update])⟩

/-! ## C6: cross-protocol merge of one link -/

theorem add_prefix_origin_links (t : NetworkTopology) (p : String) (nh : Option String) :
    (add_prefix_origin t p nh).links = t.links := by
  cases nh <;> rfl

theorem add_prefix_origin_nodes (t : NetworkTopology) (p : String) (nh : Option String) :
    (add_prefix_origin t p nh).nodes = t.nodes := by
  cases nh <;> rfl

theorem foldl_add_prefix_origin_links (l : List String) (nh : Option String)
    (t : NetworkTopology) :
    (l.foldl (fun s p => add_prefix_origin s p nh) t).links = t.links := by
  induction l generalizing t with
  | nil => rfl
  | cons a l ih => rw [List.foldl_cons, ih, add_prefix_origin_links]

theorem foldl_add_prefix_origin_nodes (l : List String) (nh : Option String)
    (t : NetworkTopology) :
    (l.foldl (fun s p => add_prefix_origin s p nh) t).nodes = t.nodes := by
  induction l generalizing t with
  | nil => rfl
  | cons a l ih => rw [List.foldl_cons, ih, add_prefix_origin_nodes]

/-- C6: applying a BGP update from router `A` whose next hop is `B` (the
edge `A→B` asserted at metric 1.0) and then an OSPF Router-LSA from `A`
with a link to `B` of any larger cost leaves the `(A, B)` link at the
smaller BGP-asserted metric 1.0 with protocol set `{"BGP", "OSPF"}`. -/
theorem c6_min_metric_merge (A B : String) (u : BgpUpdate) (lsa : OspfRouterLsa)
    (ld : String) (ty m : Nat)
    (hnh : u.next_hop = some (.str B)) (hB : B ≠ "")
    (hadv : lsa.advertising_router = A)
    (hlsa : lsa.links = [⟨B, ld, ty, m⟩])
    (hm : (1 : ℚ) < ((max 1 m : Nat) : ℚ)) :
    lookupAssoc (apply_ospf_lsa (apply_bgp_update emptyTopology A u) lsa).links (A, B) =
      some ⟨1, {"BGP", "OSPF"}⟩ := by
  have h1 : (apply_bgp_update emptyTopology A u).links = [((A, B), ⟨1, {"BGP"}⟩)] := by
    unfold apply_bgp_update
    rw [foldl_add_prefix_origin_links, hnh]
    simp [AttrValue.truthy, hB, AttrValue.asStr, add_link, emptyTopology, lookupAssoc,
      setAssoc]
  have hlk : lookupAssoc (apply_bgp_update emptyTopology A u).links (A, B) =
      some ⟨1, {"BGP"}⟩ := by
    rw [h1]
    simp [lookupAssoc]
  simp only [apply_ospf_lsa, hlsa, hadv, List.foldl_cons, List.foldl_nil]
  simp only [add_link, hlk]
  rw [lookupAssoc_setAssoc_self]
  have hprot : ({"BGP"} : Finset String) ≠ ∅ := by decide
  simp only [Option.getD_some, hprot, if_pos, ne_eq, not_false_eq_true, if_true]
  rw [min_eq_left hm.le]
  rw [Finset.pair_comm "OSPF" "BGP"]

/-- C6 witness: the merge evaluated at router 203.0.113.1, next hop /
neighbour 198.51.100.1, OSPF metric 5. -/
theorem c6_witness :
    lookupAssoc (apply_ospf_lsa (apply_bgp_update emptyTopology "203.0.113.1"
        ⟨[], [⟨64, 3, .str "198.51.100.1", [198, 51, 100, 1]⟩], []⟩)
        ⟨"203.0.113.1", "0.0.0.0", [⟨"198.51.100.1", "255.255.255.0", 1, 5⟩]⟩).links
      ("203.0.113.1", "198.51.100.1") = some ⟨1, {"BGP", "OSPF"}⟩ :=
  c6_min_metric_merge "203.0.113.1" "198.51.100.1" _ _ "255.255.255.0" 1 5
    rfl (by decide) rfl rfl (by norm_num)

/-- C4: whenever one iteration of the LSA loop succeeds, the outer cursor
lands exactly `lsa_length` bytes after where the LSA began — the 20-byte
header plus exactly `lsa_length − 20` body bytes — independent of how
many link records were parsed from the body (trailing padding in the body
is tolerated, the body slice being cut by length alone); and an LSA whose
LS type is not 1 contributes no element to the result while its body is
still consumed. -/
theorem c4_lsa_cursor_advance (payload : Bytes) (offset : Nat)
    (r : Option OspfRouterLsa) (offset' : Nat)
    (h : parse_ospf_lsa_step payload offset = .ok (r, offset')) :
    (∃ L, readU16 (pySlice payload offset (offset + 20)) 18 = some L ∧
        offset' = offset + L) ∧
    (∀ t, pyByte (pySlice payload offset (offset + 20)) 3 = some t → t ≠ 1 → r = none) := by
  simp only [parse_ospf_lsa_step] at h
  split at h
  · exact absurd h (by simp)
  split at h
  case _ ls_type lsid adv L hb hi1 hi2 hr =>
    split at h
    · exact absurd h (by simp)
    split at h
    case _ hty =>
      injection h with h'
      have hr' : r = none := (congrArg Prod.fst h').symm
      have ho' : offset' = offset + L := (congrArg Prod.snd h').symm
      exact ⟨⟨L, hr, ho'⟩, fun t _ _ => hr'⟩
    case _ hty =>
      split at h
      · exact absurd h (by simp)
      split at h
      · exact absurd h (by simp)
      split at h
      · exact absurd h (by simp)
      case _ links hlinks =>
        injection h with h'
        have ho' : offset' = offset + L := (congrArg Prod.snd h').symm
        refine ⟨⟨L, hr, ho'⟩, ?_⟩
        intro t hbt hne
        rw [hb] at hbt
        injection hbt with ht
        omega
  case _ =>
    exact absurd h (by simp)

/-- C4 witness: a type-2 (non-Router) LSA of declared length 25 at offset
0: the step succeeds, produces no element, and moves the cursor to 25. -/
theorem c4_witness :
    parse_ospf_lsa_step
        [0, 0, 0, 2, 1, 1, 1, 1, 2, 2, 2, 2, 0, 0, 0, 0, 0, 0, 0, 25, 9, 9, 9, 9, 9] 0 =
      .ok (none, 25) ∧
    (∃ L, readU16 (pySlice
        [0, 0, 0, 2, 1, 1, 1, 1, 2, 2, 2, 2, 0, 0, 0, 0, 0, 0, 0, 25, 9, 9, 9, 9, 9] 0
        (0 + 20)) 18 = some L ∧ 25 = 0 + L) :=
  ⟨rfl, (c4_lsa_cursor_advance
    [0, 0, 0, 2, 1, 1, 1, 1, 2, 2, 2, 2, 0, 0, 0, 0, 0, 0, 0, 25, 9, 9, 9, 9, 9]
    0 none 25 rfl).1⟩

/-! ## C8: the path-attribute TLV region -/

theorem parsePathAttrsLoop_ok_end (data : Bytes) (offset e : Nat)
    (acc : List BgpPathAttribute) (attrs : List BgpPathAttribute) (offset' : Nat)
    (h : parsePathAttrsLoop data offset e acc = .ok (attrs, offset')) : offset' = e := by
  have H : ∀ gas offset acc attrs offset', e - offset ≤ gas →
      parsePathAttrsLoop data offset e acc = .ok (attrs, offset') → offset' = e := by
    intro gas
    induction gas with
    | zero =>
      intro offset acc attrs offset' hle h
      rw [parsePathAttrsLoop.eq_def] at h
      have hlt : ¬offset < e := by omega
      rw [dif_neg hlt] at h
      split at h
      · exact absurd h (by simp)
      · rename_i hne
        injection h with h'
        have h2 := congrArg Prod.snd h'
        simp only at h2
        omega
    | succ g ih =>
      intro offset acc attrs offset' hle h
      rw [parsePathAttrsLoop.eq_def] at h
      by_cases h1 : offset < e
      · rw [dif_pos h1] at h
        dsimp only at h
        split at h
        · exact absurd h (by simp)
        split at h
        · split at h
          · split at h
            · exact absurd h (by simp)
            · split at h
              · exact absurd h (by simp)
              · split at h
                · exact absurd h (by simp)
                · split at h
                  · exact absurd h (by simp)
                  · exact ih _ _ _ _ (by omega) h
          · split at h
            · exact absurd h (by simp)
            · split at h
              · exact absurd h (by simp)
              · split at h
                · exact absurd h (by simp)
                · exact ih _ _ _ _ (by omega) h
        · exact absurd h (by simp)
      · rw [dif_neg h1] at h
        split at h
        · exact absurd h (by simp)
        · rename_i hne
          injection h with h'
          have h2 := congrArg Prod.snd h'
          simp only at h2
          omega
  exact H (e - offset) offset acc attrs offset' le_rfl h

/-- C8: path attributes are parsed as repeated TLVs inside the declared
region: 1 byte flags, 1 byte type code, a 2-byte big-endian length when
flags bit 0x10 is set and a 1-byte length otherwise, then that many value
bytes; a declared length underflowing the remaining region fails with a
"Truncated ..." reason; a successful parse consumes exactly the declared
region (the final cursor equals the region end), and a loop exiting past
the region end fails with the "length mismatch" reason. -/
theorem c8_tlv_attr_region :
    (∀ data offset e acc attrs offset',
        parsePathAttrsLoop data offset e acc = .ok (attrs, offset') → offset' = e) ∧
    (∀ data offset e acc, offset < e → e < offset + 2 →
        parsePathAttrsLoop data offset e acc =
          .error (.bgpError "Truncated path attribute header")) ∧
    (∀ data offset e acc flags type_code,
        offset < e → ¬e < offset + 2 →
        pyByte data offset = some flags → pyByte data (offset + 1) = some type_code →
        (flags &&& 0x10 ≠ 0 →
          (e < offset + 4 →
            parsePathAttrsLoop data offset e acc =
              .error (.bgpError "Truncated extended length")) ∧
          (∀ attr_len, ¬e < offset + 4 → readU16 data (offset + 2) = some attr_len →
            (e < offset + 4 + attr_len →
              parsePathAttrsLoop data offset e acc =
                .error (.bgpError "Truncated path attribute payload")) ∧
            (¬e < offset + 4 + attr_len →
              parsePathAttrsLoop data offset e acc =
                match decode_attribute_value type_code
                    (pySlice data (offset + 4) (offset + 4 + attr_len)) with
                | .error err => .error err
                | .ok value =>
                  parsePathAttrsLoop data (offset + 4 + attr_len) e
                    (acc ++ [⟨flags, type_code, value,
                      pySlice data (offset + 4) (offset + 4 + attr_len)⟩])))) ∧
        (¬flags &&& 0x10 ≠ 0 →
          (∀ attr_len, pyByte data (offset + 2) = some attr_len →
            (e < offset + 3 + attr_len →
              parsePathAttrsLoop data offset e acc =
                .error (.bgpError "Truncated path attribute payload")) ∧
            (¬e < offset + 3 + attr_len →
              parsePathAttrsLoop data offset e acc =
                match decode_attribute_value type_code
                    (pySlice data (offset + 3) (offset + 3 + attr_len)) with
                | .error err => .error err
                | .ok value =>
                  parsePathAttrsLoop data (offset + 3 + attr_len) e
                    (acc ++ [⟨flags, type_code, value,
                      pySlice data (offset + 3) (offset + 3 + attr_len)⟩]))))) ∧
    (∀ data offset e acc, ¬offset < e → offset ≠ e →
        parsePathAttrsLoop data offset e acc =
          .error (.bgpError "Path attribute length mismatch")) := by
  refine ⟨parsePathAttrsLoop_ok_end, ?_, ?_, ?_⟩
  · intro data offset e acc h1 h2
    rw [parsePathAttrsLoop.eq_def, dif_pos h1, if_pos h2]
  · intro data offset e acc flags type_code h1 h2 hb1 hb2
    constructor
    · intro hext
      constructor
      · intro h4
        rw [parsePathAttrsLoop.eq_def, dif_pos h1, if_neg h2, hb1, hb2]
        dsimp only
        rw [if_pos hext, if_pos h4]
      · intro attr_len h4 hr
        constructor
        · intro hlen
          rw [parsePathAttrsLoop.eq_def, dif_pos h1, if_neg h2, hb1, hb2]
          dsimp only
          rw [if_pos hext, if_neg h4, hr]
          dsimp only
          rw [if_pos hlen]
        · intro hlen
          rw [parsePathAttrsLoop.eq_def, dif_pos h1, if_neg h2, hb1, hb2]
          dsimp only
          rw [if_pos hext, if_neg h4, hr]
          dsimp only
          rw [if_neg hlen]
    · intro hext
      intro attr_len hb3
      constructor
      · intro hlen
        rw [parsePathAttrsLoop.eq_def, dif_pos h1, if_neg h2, hb1, hb2]
        dsimp only
        rw [if_neg hext, hb3]
        dsimp only
        rw [if_pos hlen]
      · intro hlen
        rw [parsePathAttrsLoop.eq_def, dif_pos h1, if_neg h2, hb1, hb2]
        dsimp only
        rw [if_neg hext, hb3]
        dsimp only
        rw [if_neg hlen]
  · intro data offset e acc h1 hne
    rw [parsePathAttrsLoop.eq_def, dif_neg h1, if_pos hne]

/-- C8 witness: a one-byte region fails with the truncated-header reason,
and a cursor already past the region end fails with the length-mismatch
reason. -/
theorem c8_witness :
    parsePathAttrsLoop [64, 1] 0 1 [] =
      .error (.bgpError "Truncated path attribute header") ∧
    parsePathAttrsLoop [64, 1] 5 3 [] =
      .error (.bgpError "Path attribute length mismatch") :=
  ⟨c8_tlv_attr_region.2.1 [64, 1] 0 1 [] (by omega) (by omega),
   c8_tlv_attr_region.2.2.2 [64, 1] 5 3 [] (by omega) (by omega)⟩

/-! ## C2: minimum-metric / growth invariants of the link map -/

theorem assertedForH_append (H1 H2 : List (String × String × ℚ)) (s d : String) :
    assertedForH (H1 ++ H2) s d = assertedForH H1 s d ++ assertedForH H2 s d := by
  simp [assertedForH, List.filterMap_append]

theorem assertedForH_single_self (s d : String) (m : ℚ) :
    assertedForH [(s, d, m)] s d = [m] := by
  simp [assertedForH]

theorem assertedForH_single_ne (s d s' d' : String) (m : ℚ) (h : (s', d') ≠ (s, d)) :
    assertedForH [(s, d, m)] s' d' = [] := by
  have : ¬(s = s' ∧ d = d') := by
    intro ⟨h1, h2⟩
    exact h (by rw [h1, h2])
  simp [assertedForH, this]

theorem links_inv_add_link (t : NetworkTopology) (H : List (String × String × ℚ))
    (s d : String) (metric : ℚ) (pr : String) (h : LinksInv t.links H) :
    LinksInv (add_link t s d metric pr).links (H ++ [(s, d, metric)]) := by
  intro s' d'
  rw [assertedForH_append]
  by_cases hk : (s', d') = (s, d)
  · have hs : s' = s := congrArg Prod.fst hk
    have hd : d' = d := congrArg Prod.snd hk
    subst hs
    subst hd
    rw [show (add_link t s' d' metric pr).links =
      setAssoc t.links (s', d')
        ⟨if ((lookupAssoc t.links (s', d')).getD {}).protocols ≠ ∅ then
            min ((lookupAssoc t.links (s', d')).getD {}).metric metric
          else metric,
          insert pr ((lookupAssoc t.links (s', d')).getD {}).protocols⟩ from rfl]
    rw [lookupAssoc_setAssoc_self]
    refine ⟨by simp, ?_⟩
    intro md hmd
    injection hmd with hmd
    cases hold : lookupAssoc t.links (s', d') with
    | none =>
      have hH : assertedForH H s' d' = [] := (h s' d').1 hold
      rw [hold] at hmd
      simp only [Option.getD_none] at hmd
      constructor
      · rw [← hmd]
        simp
      · refine ⟨metric, [], ?_, ?_⟩
        · rw [hH, assertedForH_single_self]
          simp
        · rw [← hmd]
          have : ({} : LinkMetadata).protocols = ∅ := rfl
          simp [this]
    | some md0 =>
      obtain ⟨hprot, m, ms, hH, hmin⟩ := (h s' d').2 md0 hold
      rw [hold] at hmd
      simp only [Option.getD_some] at hmd
      constructor
      · rw [← hmd]
        simp
      · refine ⟨m, ms ++ [metric], ?_, ?_⟩
        · rw [hH, assertedForH_single_self]
          simp
        · rw [← hmd]
          simp only [hprot, ne_eq, not_false_eq_true, if_true, List.foldl_append,
            List.foldl_cons, List.foldl_nil]
          rw [hmin]
  · rw [show (add_link t s d metric pr).links =
      setAssoc t.links (s, d)
        ⟨if ((lookupAssoc t.links (s, d)).getD {}).protocols ≠ ∅ then
            min ((lookupAssoc t.links (s, d)).getD {}).metric metric
          else metric,
          insert pr ((lookupAssoc t.links (s, d)).getD {}).protocols⟩ from rfl]
    rw [lookupAssoc_setAssoc_ne _ _ _ _ hk, assertedForH_single_ne _ _ _ _ _ hk]
    constructor
    · intro hnone
      rw [List.append_nil]
      exact (h s' d').1 hnone
    · intro md hmd
      obtain ⟨hprot, m, ms, hH, hmin⟩ := (h s' d').2 md hmd
      exact ⟨hprot, m, ms, by rw [List.append_nil, hH], hmin⟩

theorem decode_attribute_value_type3_str (raw : Bytes) (v : AttrValue)
    (h : decode_attribute_value 3 raw = .ok v) : ∃ s, v = AttrValue.str s := by
  unfold decode_attribute_value at h
  rw [if_neg (by norm_num), if_neg (by norm_num), if_pos rfl] at h
  split at h
  · exact absurd h (by simp)
  · split at h
    · rename_i s hs
      injection h with h'
      exact ⟨s, h'.symm⟩
    · exact absurd h (by simp)

theorem parsePathAttrsLoop_type3 (data : Bytes) (offset e : Nat)
    (acc attrs : List BgpPathAttribute) (offset' : Nat)
    (h : parsePathAttrsLoop data offset e acc = .ok (attrs, offset'))
    (hacc : ∀ a ∈ acc, a.type_code = 3 → ∃ s, a.value = AttrValue.str s) :
    ∀ a ∈ attrs, a.type_code = 3 → ∃ s, a.value = AttrValue.str s := by
  have H : ∀ gas offset acc attrs offset', e - offset ≤ gas →
      parsePathAttrsLoop data offset e acc = .ok (attrs, offset') →
      (∀ a ∈ acc, a.type_code = 3 → ∃ s, a.value = AttrValue.str s) →
      ∀ a ∈ attrs, a.type_code = 3 → ∃ s, a.value = AttrValue.str s := by
    intro gas
    induction gas with
    | zero =>
      intro offset acc attrs offset' hle h hacc
      rw [parsePathAttrsLoop.eq_def] at h
      have hlt : ¬offset < e := by omega
      rw [dif_neg hlt] at h
      split at h
      · exact absurd h (by simp)
      · injection h with h'
        have := congrArg Prod.fst h'
        simp only at this
        rw [← this]
        exact hacc
    | succ g ih =>
      intro offset acc attrs offset' hle h hacc
      rw [parsePathAttrsLoop.eq_def] at h
      by_cases h1 : offset < e
      · rw [dif_pos h1] at h
        dsimp only at h
        split at h
        · exact absurd h (by simp)
        split at h
        · split at h
          · split at h
            · exact absurd h (by simp)
            · split at h
              · exact absurd h (by simp)
              · split at h
                · exact absurd h (by simp)
                · split at h
                  · exact absurd h (by simp)
                  · rename_i flags tc _ _ _ al _ _ v hdec
                    refine ih _ _ _ _ (by omega) h ?_
                    intro a ha
                    rcases List.mem_append.mp ha with hmem | hmem
                    · exact hacc a hmem
                    · rw [List.mem_singleton.mp hmem]
                      intro ht3
                      simp only at ht3
                      rw [ht3] at hdec
                      exact decode_attribute_value_type3_str _ _ hdec
          · split at h
            · exact absurd h (by simp)
            · split at h
              · exact absurd h (by simp)
              · split at h
                · exact absurd h (by simp)
                · rename_i flags tc _ _ al _ _ v hdec
                  refine ih _ _ _ _ (by omega) h ?_
                  intro a ha
                  rcases List.mem_append.mp ha with hmem | hmem
                  · exact hacc a hmem
                  · rw [List.mem_singleton.mp hmem]
                    intro ht3
                    simp only at ht3
                    rw [ht3] at hdec
                    exact decode_attribute_value_type3_str _ _ hdec
        · exact absurd h (by simp)
      · rw [dif_neg h1] at h
        split at h
        · exact absurd h (by simp)
        · injection h with h'
          have := congrArg Prod.fst h'
          simp only at this
          rw [← this]
          exact hacc
  exact H (e - offset) offset acc attrs offset' le_rfl h hacc

theorem parse_bgp_update_wf (payload : Bytes) (u : BgpUpdate)
    (h : parse_bgp_update payload = .ok u) : u.wf := by
  unfold parse_bgp_update at h
  split at h
  · exact absurd h (by simp)
  split at h
  · exact absurd h (by simp)
  split at h
  · exact absurd h (by simp)
  split at h
  · exact absurd h (by simp)
  split at h
  · exact absurd h (by simp)
  split at h
  · exact absurd h (by simp)
  split at h
  · exact absurd h (by simp)
  split at h
  · exact absurd h (by simp)
  split at h
  · exact absurd h (by simp)
  split at h
  · exact absurd h (by simp)
  case _ attrs offset2 hattrs =>
    split at h
    · exact absurd h (by simp)
    case _ nlri offset3 hnlri =>
      split at h
      · exact absurd h (by simp)
      · injection h with h'
        intro a ha h3
        have hmem : a ∈ attrs := by
          rw [← h'] at ha
          exact ha
        exact parsePathAttrsLoop_type3 payload _ _ [] attrs offset2 hattrs
          (by intro a ha; exact absurd ha (List.not_mem_nil a)) a hmem h3

theorem links_inv_apply_bgp (t : NetworkTopology) (H : List (String × String × ℚ))
    (r : String) (u : BgpUpdate) (h : LinksInv t.links H) :
    LinksInv (apply_bgp_update t r u).links (H ++ bgpAsserts r u) := by
  unfold apply_bgp_update
  cases hnh : u.next_hop with
  | none =>
    rw [foldl_add_prefix_origin_links]
    simp only [bgpAsserts, hnh, List.append_nil]
    exact h
  | some v =>
    rw [foldl_add_prefix_origin_links]
    simp only [bgpAsserts, hnh]
    by_cases ht : v.truthy = true
    · simp only [if_pos ht]
      exact links_inv_add_link _ _ _ _ _ _ h
    · simp only [if_neg ht, List.append_nil]
      exact h

theorem links_inv_ospf_links_fold (adv : String) (ls : List OspfRouterLink)
    (t : NetworkTopology) (H : List (String × String × ℚ)) (h : LinksInv t.links H) :
    LinksInv ((ls.foldl
        (fun s link => add_link s adv link.link_id ((max 1 link.metric : Nat) : ℚ) "OSPF")
        t).links)
      (H ++ ls.map (fun link => (adv, link.link_id, ((max 1 link.metric : Nat) : ℚ)))) := by
  induction ls generalizing t H with
  | nil => simpa using h
  | cons a ls ih =>
    rw [List.foldl_cons, List.map_cons]
    have step := links_inv_add_link t H adv a.link_id ((max 1 a.metric : Nat) : ℚ) "OSPF" h
    have := ih _ _ step
    rw [List.append_assoc] at this
    simpa using this

theorem links_inv_apply_ospf (t : NetworkTopology) (H : List (String × String × ℚ))
    (lsa : OspfRouterLsa) (h : LinksInv t.links H) :
    LinksInv (apply_ospf_lsa t lsa).links (H ++ ospfAsserts lsa) := by
  unfold apply_ospf_lsa
  exact links_inv_ospf_links_fold lsa.advertising_router lsa.links _ H h

theorem links_inv_ospf_lsas_fold (lsas : List OspfRouterLsa) (t : NetworkTopology)
    (H : List (String × String × ℚ)) (h : LinksInv t.links H) :
    LinksInv ((lsas.foldl apply_ospf_lsa t).links) (H ++ lsas.flatMap ospfAsserts) := by
  induction lsas generalizing t H with
  | nil => simpa using h
  | cons a lsas ih =>
    rw [List.foldl_cons, List.flatMap_cons]
    have step := links_inv_apply_ospf t H a h
    have := ih _ _ step
    rw [List.append_assoc] at this
    exact this

theorem links_inv_runOp (t : NetworkTopology) (H : List (String × String × ℚ))
    (op : TopoOp) (h : LinksInv t.links H) :
    LinksInv (runOp t op).links (H ++ opAsserts op) := by
  cases op with
  | addLink s d m pr => exact links_inv_add_link t H s d m pr h
  | applyBgp r u => exact links_inv_apply_bgp t H r u h
  | applyOspf lsa => exact links_inv_apply_ospf t H lsa h
  | ingestPkt p =>
    simp only [runOp, opAsserts, ingest_packet]
    by_cases hb : p.payload_protocol = some "BGP"
    · simp only [if_pos hb]
      cases hres : parse_bgp_update p.payload with
      | ok u =>
        simp only [hres, Except.map]
        exact links_inv_apply_bgp t H p.src_ip u h
      | error e =>
        simp only [hres, Except.map, List.append_nil]
        exact h
    · simp only [if_neg hb]
      by_cases ho : p.payload_protocol = some "OSPF"
      · simp only [if_pos ho]
        cases hres : parse_ospf_lsas p.payload with
        | ok lsas =>
          simp only [hres, Except.map]
          exact links_inv_ospf_lsas_fold lsas t H h
        | error e =>
          simp only [hres, Except.map, List.append_nil]
          exact h
      · simp only [if_neg ho, List.append_nil]
        exact h

theorem links_inv_empty : LinksInv emptyTopology.links [] := by
  intro s d
  constructor
  · intro _
    rfl
  · intro md hmd
    exact absurd hmd (by simp [emptyTopology, lookupAssoc])

theorem links_inv_runOps (ops : List TopoOp) :
    LinksInv (runOps ops).links (ops.flatMap opAsserts) := by
  have H : ∀ (ops2 : List TopoOp) (t : NetworkTopology) (Hh : List (String × String × ℚ)),
      LinksInv t.links Hh →
      LinksInv ((ops2.foldl runOp t).links) (Hh ++ ops2.flatMap opAsserts) := by
    intro ops2
    induction ops2 with
    | nil =>
      intro t Hh h
      simpa using h
    | cons op ops ih =>
      intro t Hh h
      rw [List.foldl_cons, List.flatMap_cons]
      have := ih _ _ (links_inv_runOp t Hh op h)
      rw [List.append_assoc] at this
      exact this
  have := H ops emptyTopology [] links_inv_empty
  simpa [runOps] using this

theorem links_mono_refl (t : NetworkTopology) : LinksMono t t :=
  fun k md h => ⟨md, h, Finset.Subset.refl _⟩

theorem links_mono_trans {t1 t2 t3 : NetworkTopology} (h12 : LinksMono t1 t2)
    (h23 : LinksMono t2 t3) : LinksMono t1 t3 := by
  intro k md h
  obtain ⟨md2, h2, hs2⟩ := h12 k md h
  obtain ⟨md3, h3, hs3⟩ := h23 k md2 h2
  exact ⟨md3, h3, hs2.trans hs3⟩

theorem links_mono_of_links_eq {t t' : NetworkTopology} (h : t'.links = t.links) :
    LinksMono t t' := by
  intro k md hk
  exact ⟨md, by rw [h]; exact hk, Finset.Subset.refl _⟩

theorem links_mono_add_link (t : NetworkTopology) (s d : String) (m : ℚ) (pr : String) :
    LinksMono t (add_link t s d m pr) := by
  intro k md hk
  by_cases hkk : k = (s, d)
  · subst hkk
    refine ⟨⟨if ((lookupAssoc t.links (s, d)).getD {}).protocols ≠ ∅ then
        min ((lookupAssoc t.links (s, d)).getD {}).metric m else m,
        insert pr ((lookupAssoc t.links (s, d)).getD {}).protocols⟩,
      lookupAssoc_setAssoc_self _ _ _, ?_⟩
    rw [hk]
    exact Finset.subset_insert _ _
  · exact ⟨md, by
      rw [show (add_link t s d m pr).links = setAssoc t.links (s, d)
        ⟨if ((lookupAssoc t.links (s, d)).getD {}).protocols ≠ ∅ then
            min ((lookupAssoc t.links (s, d)).getD {}).metric m
          else m,
          insert pr ((lookupAssoc t.links (s, d)).getD {}).protocols⟩ from rfl]
      rw [lookupAssoc_setAssoc_ne _ _ _ _ hkk]
      exact hk, Finset.Subset.refl _⟩

theorem links_mono_apply_bgp (t : NetworkTopology) (r : String) (u : BgpUpdate) :
    LinksMono t (apply_bgp_update t r u) := by
  unfold apply_bgp_update
  refine links_mono_trans
    (?_ : LinksMono t (match u.next_hop with
      | some v => if v.truthy then
          add_link { t with nodes := insert r t.nodes } r v.asStr 1 "BGP"
        else { t with nodes := insert r t.nodes }
      | none => { t with nodes := insert r t.nodes })) ?_
  · cases hnh : u.next_hop with
    | none => exact links_mono_of_links_eq rfl
    | some v =>
      by_cases ht : v.truthy = true
      · simp only [if_pos ht]
        exact links_mono_add_link _ _ _ _ _
      · simp only [if_neg ht]
        exact links_mono_of_links_eq rfl
  · exact links_mono_of_links_eq (foldl_add_prefix_origin_links _ _ _)

theorem links_mono_apply_ospf (t : NetworkTopology) (lsa : OspfRouterLsa) :
    LinksMono t (apply_ospf_lsa t lsa) := by
  unfold apply_ospf_lsa
  have H : ∀ (ls : List OspfRouterLink) (t0 : NetworkTopology),
      LinksMono t0 (ls.foldl
        (fun s link => add_link s lsa.advertising_router link.link_id
          ((max 1 link.metric : Nat) : ℚ) "OSPF") t0) := by
    intro ls
    induction ls with
    | nil => exact fun t0 => links_mono_refl t0
    | cons a ls ih =>
      intro t0
      rw [List.foldl_cons]
      exact links_mono_trans (links_mono_add_link _ _ _ _ _) (ih _)
  exact links_mono_trans
    (links_mono_of_links_eq
      (rfl : ({ t with nodes := insert lsa.advertising_router t.nodes} :
        NetworkTopology).links = t.links))
    (H lsa.links _)

theorem links_mono_runOp (t : NetworkTopology) (op : TopoOp) :
    LinksMono t (runOp t op) := by
  cases op with
  | addLink s d m pr => exact links_mono_add_link t s d m pr
  | applyBgp r u => exact links_mono_apply_bgp t r u
  | applyOspf lsa => exact links_mono_apply_ospf t lsa
  | ingestPkt p =>
    simp only [runOp, ingest_packet]
    by_cases hb : p.payload_protocol = some "BGP"
    · simp only [if_pos hb]
      cases hres : parse_bgp_update p.payload with
      | ok u =>
        simp only [hres, Except.map]
        exact links_mono_apply_bgp t p.src_ip u
      | error e =>
        simp only [hres, Except.map]
        exact links_mono_refl t
    · simp only [if_neg hb]
      by_cases ho : p.payload_protocol = some "OSPF"
      · simp only [if_pos ho]
        cases hres : parse_ospf_lsas p.payload with
        | ok lsas =>
          simp only [hres, Except.map]
          have H : ∀ (ls : List OspfRouterLsa) (t0 : NetworkTopology),
              LinksMono t0 (ls.foldl apply_ospf_lsa t0) := by
            intro ls
            induction ls with
            | nil => exact fun t0 => links_mono_refl t0
            | cons a ls ih =>
              intro t0
              rw [List.foldl_cons]
              exact links_mono_trans (links_mono_apply_ospf _ _) (ih _)
          exact H lsas t
        | error e =>
          simp only [hres, Except.map]
          exact links_mono_refl t
      · simp only [if_neg ho]
        exact links_mono_refl t

theorem nodes_mono_add_link (t : NetworkTopology) (s d : String) (m : ℚ) (pr : String) :
    t.nodes ⊆ (add_link t s d m pr).nodes := by
  intro v hv
  exact Finset.mem_insert_of_mem (Finset.mem_insert_of_mem hv)

theorem nodes_mono_apply_bgp (t : NetworkTopology) (r : String) (u : BgpUpdate) :
    t.nodes ⊆ (apply_bgp_update t r u).nodes := by
  intro v hv
  simp only [apply_bgp_update, foldl_add_prefix_origin_nodes]
  cases hnh : u.next_hop with
  | none => exact Finset.mem_insert_of_mem hv
  | some w =>
    by_cases ht : w.truthy = true
    · simp only [if_pos ht]
      exact nodes_mono_add_link _ _ _ _ _ (Finset.mem_insert_of_mem hv)
    · simp only [if_neg ht]
      exact Finset.mem_insert_of_mem hv

theorem nodes_mono_apply_ospf (t : NetworkTopology) (lsa : OspfRouterLsa) :
    t.nodes ⊆ (apply_ospf_lsa t lsa).nodes := by
  intro v hv
  simp only [apply_ospf_lsa]
  have H : ∀ (ls : List OspfRouterLink) (t0 : NetworkTopology), t0.nodes ⊆
      (ls.foldl (fun s link => add_link s lsa.advertising_router link.link_id
        ((max 1 link.metric : Nat) : ℚ) "OSPF") t0).nodes := by
    intro ls
    induction ls with
    | nil => exact fun t0 => Finset.Subset.refl _
    | cons a ls ih =>
      intro t0
      rw [List.foldl_cons]
      exact (nodes_mono_add_link _ _ _ _ _).trans (ih _)
  exact H lsa.links _ (Finset.mem_insert_of_mem hv)

theorem nodes_mono_runOp (t : NetworkTopology) (op : TopoOp) :
    t.nodes ⊆ (runOp t op).nodes := by
  cases op with
  | addLink s d m pr => exact nodes_mono_add_link t s d m pr
  | applyBgp r u => exact nodes_mono_apply_bgp t r u
  | applyOspf lsa => exact nodes_mono_apply_ospf t lsa
  | ingestPkt p =>
    simp only [runOp, ingest_packet]
    by_cases hb : p.payload_protocol = some "BGP"
    · simp only [if_pos hb]
      cases hres : parse_bgp_update p.payload with
      | ok u =>
        simp only [hres, Except.map]
        exact nodes_mono_apply_bgp t p.src_ip u
      | error e =>
        simp only [hres, Except.map]
        exact Finset.Subset.refl _
    · simp only [if_neg hb]
      by_cases ho : p.payload_protocol = some "OSPF"
      · simp only [if_pos ho]
        cases hres : parse_ospf_lsas p.payload with
        | ok lsas =>
          simp only [hres, Except.map]
          have H : ∀ (ls : List OspfRouterLsa) (t0 : NetworkTopology), t0.nodes ⊆
              (ls.foldl apply_ospf_lsa t0).nodes := by
            intro ls
            induction ls with
            | nil => exact fun t0 => Finset.Subset.refl _
            | cons a ls ih =>
              intro t0
              rw [List.foldl_cons]
              exact (nodes_mono_apply_ospf _ _).trans (ih _)
          exact H lsas t
        | error e =>
          simp only [hres, Except.map]
          exact Finset.Subset.refl _
      · simp only [if_neg ho]
        exact Finset.Subset.refl _

/-- C2: starting from the empty topology, after any sequence of
`add_link` / `apply_bgp_update` / `apply_ospf_lsa` / `ingest_packet`
operations every directed pair present in the link map carries as metric
the (left-fold, as the code computes it) minimum of every metric ever
asserted for that ordered pair regardless of asserting protocol; and
across any single further operation from any state no link disappears,
no protocol set shrinks, and no node is removed.  The `wf` hypothesis
restricts `apply_bgp_update` arguments to updates whose NEXT_HOP values
are strings, the only ones the Python program can process without
crashing (and the only ones its parser produces). -/
theorem c2_min_metric_and_growth :
    (∀ ops : List TopoOp, (∀ op ∈ ops, op.wf) → ∀ s d md,
        lookupAssoc (runOps ops).links (s, d) = some md →
        ∃ m ms, assertedFor ops s d = m :: ms ∧ md.metric = ms.foldl min m) ∧
    (∀ (t : NetworkTopology) (op : TopoOp), op.wf → LinksMono t (runOp t op)) ∧
    (∀ (t : NetworkTopology) (op : TopoOp), op.wf → t.nodes ⊆ (runOp t op).nodes) := by
  refine ⟨?_, fun t op _ => links_mono_runOp t op, fun t op _ => nodes_mono_runOp t op⟩
  intro ops _ s d md hmd
  obtain ⟨_, m, ms, hH, hmin⟩ := ((links_inv_runOps ops) s d).2 md hmd
  exact ⟨m, ms, hH, hmin⟩

/-- C2 witness: two `add_link` calls on the same pair with metrics 2 then
1 leave the pair's metric at the fold-minimum 1 of its asserted history
[2, 1]. -/
theorem c2_witness :
    (∀ op ∈ [TopoOp.addLink "A" "B" 2 "X", TopoOp.addLink "A" "B" 1 "Y"], op.wf) ∧
    (∃ m ms,
      assertedFor [TopoOp.addLink "A" "B" 2 "X", TopoOp.addLink "A" "B" 1 "Y"] "A" "B" =
        m :: ms ∧
      (⟨1, {"Y", "X"}⟩ : LinkMetadata).metric = ms.foldl min m) := by
  have hwf : ∀ op ∈ [TopoOp.addLink "A" "B" 2 "X", TopoOp.addLink "A" "B" 1 "Y"], op.wf := by
    intro op hop
    rcases List.mem_cons.mp hop with h | h
    · rw [h]; trivial
    rcases List.mem_cons.mp h with h' | h'
    · rw [h']; trivial
    · exact absurd h' (List.not_mem_nil op)
  refine ⟨hwf, ?_⟩
  refine c2_min_metric_and_growth.1
    [TopoOp.addLink "A" "B" 2 "X", TopoOp.addLink "A" "B" 1 "Y"] hwf "A" "B"
    ⟨1, {"Y", "X"}⟩ ?_
  rfl

/-! ## C9: the node set is exactly the observed addresses -/

theorem mem_add_link_nodes (t : NetworkTopology) (s d : String) (m : ℚ) (pr v : String) :
    v ∈ (add_link t s d m pr).nodes ↔ v ∈ t.nodes ∨ v = s ∨ v = d := by
  simp only [add_link, Finset.mem_insert]
  tauto

theorem mem_insert_id_fold (ls : List OspfRouterLink) (X : Finset String) (v : String) :
    v ∈ ls.foldl (fun acc link => insert link.link_id acc) X ↔
      v ∈ X ∨ ∃ l ∈ ls, v = l.link_id := by
  induction ls generalizing X with
  | nil => simp
  | cons a ls ih =>
    rw [List.foldl_cons, ih]
    simp only [Finset.mem_insert, List.mem_cons]
    constructor
    · rintro ((h | h) | ⟨l, hl, hv⟩)
      · exact .inr ⟨a, .inl rfl, h⟩
      · exact .inl h
      · exact .inr ⟨l, .inr hl, hv⟩
    · rintro (h | ⟨l, hl | hl, hv⟩)
      · exact .inl (.inr h)
      · exact .inl (.inl (hv.trans (congrArg OspfRouterLink.link_id hl)))
      · exact .inr ⟨l, hl, hv⟩

theorem mem_apply_bgp_nodes (t : NetworkTopology) (r : String) (u : BgpUpdate) (v : String) :
    v ∈ (apply_bgp_update t r u).nodes ↔ v ∈ t.nodes ∨ v ∈ bgpNodeSources r u := by
  simp only [apply_bgp_update, foldl_add_prefix_origin_nodes, bgpNodeSources]
  cases hnh : u.next_hop with
  | none =>
    simp only [Finset.mem_insert, Finset.mem_singleton]
    tauto
  | some w =>
    by_cases ht : w.truthy = true
    · simp only [if_pos ht, mem_add_link_nodes, Finset.mem_insert, Finset.mem_singleton]
      tauto
    · simp only [if_neg ht, Finset.mem_insert, Finset.mem_singleton]
      tauto

theorem mem_ospf_link_fold_nodes (adv : String) (ls : List OspfRouterLink)
    (t0 : NetworkTopology) (v : String) :
    v ∈ (ls.foldl (fun s link => add_link s adv link.link_id
        ((max 1 link.metric : Nat) : ℚ) "OSPF") t0).nodes ↔
      v ∈ t0.nodes ∨ (ls ≠ [] ∧ v = adv) ∨ ∃ l ∈ ls, v = l.link_id := by
  induction ls generalizing t0 with
  | nil => simp
  | cons a ls ih =>
    rw [List.foldl_cons, ih]
    simp only [mem_add_link_nodes, List.mem_cons]
    constructor
    · rintro ((h | h | h) | ⟨_, h⟩ | ⟨l, hl, hv⟩)
      · exact .inl h
      · exact .inr (.inl ⟨by simp, h⟩)
      · exact .inr (.inr ⟨a, .inl rfl, h⟩)
      · exact .inr (.inl ⟨by simp, h⟩)
      · exact .inr (.inr ⟨l, .inr hl, hv⟩)
    · rintro (h | ⟨_, h⟩ | ⟨l, hl | hl, hv⟩)
      · exact .inl (.inl h)
      · exact .inl (.inr (.inl h))
      · exact .inl (.inr (.inr (hv.trans (congrArg OspfRouterLink.link_id hl))))
      · exact .inr (.inr ⟨l, hl, hv⟩)

theorem mem_apply_ospf_nodes (t : NetworkTopology) (lsa : OspfRouterLsa) (v : String) :
    v ∈ (apply_ospf_lsa t lsa).nodes ↔ v ∈ t.nodes ∨ v ∈ ospfNodeSources lsa := by
  simp only [apply_ospf_lsa, ospfNodeSources, mem_ospf_link_fold_nodes, Finset.mem_insert,
    mem_insert_id_fold, Finset.not_mem_empty, false_or]
  tauto

theorem mem_ospf_lsas_fold_nodes (lsas : List OspfRouterLsa) (t0 : NetworkTopology)
    (v : String) :
    v ∈ (lsas.foldl apply_ospf_lsa t0).nodes ↔
      v ∈ t0.nodes ∨ ∃ l ∈ lsas, v ∈ ospfNodeSources l := by
  induction lsas generalizing t0 with
  | nil => simp
  | cons a lsas ih =>
    rw [List.foldl_cons, ih]
    simp only [mem_apply_ospf_nodes, List.mem_cons]
    constructor
    · rintro ((h | h) | ⟨l, hl, hv⟩)
      · exact .inl h
      · exact .inr ⟨a, .inl rfl, h⟩
      · exact .inr ⟨l, .inr hl, hv⟩
    · rintro (h | ⟨l, hl | hl, hv⟩)
      · exact .inl (.inl h)
      · exact .inl (.inr (hl ▸ hv))
      · exact .inr ⟨l, hl, hv⟩

theorem mem_runOp_nodes (t : NetworkTopology) (op : TopoOp) (v : String) :
    v ∈ (runOp t op).nodes ↔ v ∈ t.nodes ∨ v ∈ opNodeSources op := by
  cases op with
  | addLink s d m pr =>
    simp only [runOp, opNodeSources, mem_add_link_nodes, Finset.mem_insert,
      Finset.mem_singleton]
  | applyBgp r u => exact mem_apply_bgp_nodes t r u v
  | applyOspf lsa => exact mem_apply_ospf_nodes t lsa v
  | ingestPkt p =>
    simp only [runOp, opNodeSources, ingest_packet]
    by_cases hb : p.payload_protocol = some "BGP"
    · simp only [if_pos hb]
      cases hres : parse_bgp_update p.payload with
      | ok u =>
        simp only [hres, Except.map]
        exact mem_apply_bgp_nodes t p.src_ip u v
      | error e => simp [hres, Except.map]
    · simp only [if_neg hb]
      by_cases ho : p.payload_protocol = some "OSPF"
      · simp only [if_pos ho]
        cases hres : parse_ospf_lsas p.payload with
        | ok lsas =>
          simp only [hres, Except.map]
          rw [mem_ospf_lsas_fold_nodes]
          have : ∀ (l2 : List OspfRouterLsa) (X : Finset String),
              v ∈ l2.foldl (fun acc lsa => acc ∪ ospfNodeSources lsa) X ↔
                v ∈ X ∨ ∃ l ∈ l2, v ∈ ospfNodeSources l := by
            intro l2
            induction l2 with
            | nil => simp
            | cons a l2 ih =>
              intro X
              rw [List.foldl_cons, ih]
              simp only [Finset.mem_union, List.mem_cons]
              constructor
              · rintro ((h | h) | ⟨l, hl, hv⟩)
                · exact .inl h
                · exact .inr ⟨a, .inl rfl, h⟩
                · exact .inr ⟨l, .inr hl, hv⟩
              · rintro (h | ⟨l, hl | hl, hv⟩)
                · exact .inl (.inl h)
                · exact .inl (.inr (hl ▸ hv))
                · exact .inr ⟨l, hl, hv⟩
          rw [this]
          simp
        | error e => simp [hres, Except.map]
      · simp [if_neg ho]

theorem mem_union_foldl (l : List (Finset String)) (X : Finset String) (v : String) :
    v ∈ l.foldl (· ∪ ·) X ↔ v ∈ X ∨ ∃ s ∈ l, v ∈ s := by
  induction l generalizing X with
  | nil => simp
  | cons a l ih =>
    rw [List.foldl_cons, ih]
    simp only [Finset.mem_union, List.mem_cons]
    constructor
    · rintro ((h | h) | ⟨s, hs, hv⟩)
      · exact .inl h
      · exact .inr ⟨a, .inl rfl, h⟩
      · exact .inr ⟨s, .inr hs, hv⟩
    · rintro (h | ⟨s, hs | hs, hv⟩)
      · exact .inl (.inl h)
      · exact .inl (.inr (hs ▸ hv))
      · exact .inr ⟨s, hs, hv⟩

theorem mem_runOps_fold_nodes (ops : List TopoOp) (t : NetworkTopology) (v : String) :
    v ∈ (ops.foldl runOp t).nodes ↔ v ∈ t.nodes ∨ ∃ op ∈ ops, v ∈ opNodeSources op := by
  induction ops generalizing t with
  | nil => simp
  | cons op ops ih =>
    rw [List.foldl_cons, ih]
    simp only [mem_runOp_nodes, List.mem_cons]
    constructor
    · rintro ((h | h) | ⟨o, ho, hv⟩)
      · exact .inl h
      · exact .inr ⟨op, .inl rfl, h⟩
      · exact .inr ⟨o, .inr ho, hv⟩
    · rintro (h | ⟨o, ho | ho, hv⟩)
      · exact .inl (.inl h)
      · exact .inl (.inr (ho ▸ hv))
      · exact .inr ⟨o, ho, hv⟩

/-- C9: after any sequence of apply/ingest operations from the empty
topology, the node set equals exactly the union of the addresses that
appeared as an endpoint of an asserted link or as an advertising /
source router — no more and no fewer.  (`wf` as in the C2 theorem.) -/
theorem c9_nodes_exactly_sources (ops : List TopoOp) (hwf : ∀ op ∈ ops, op.wf) :
    (runOps ops).nodes = (ops.map opNodeSources).foldl (· ∪ ·) ∅ := by
  ext v
  rw [runOps, mem_runOps_fold_nodes, mem_union_foldl]
  simp only [emptyTopology, Finset.not_mem_empty, false_or, List.mem_map]
  constructor
  · rintro ⟨op, hop, hv⟩
    exact ⟨opNodeSources op, ⟨op, hop, rfl⟩, hv⟩
  · rintro ⟨s, ⟨op, hop, rfl⟩, hv⟩
    exact ⟨op, hop, hv⟩

/-- C9 witness: one BGP apply from router A with next hop B yields the
node set {A, B} = the union of that operation's observed addresses. -/
theorem c9_witness :
    (∀ op ∈ [TopoOp.applyBgp "A" ⟨[], [⟨64, 3, .str "B", [0, 0, 0, 0]⟩], []⟩], op.wf) ∧
    (runOps [TopoOp.applyBgp "A" ⟨[], [⟨64, 3, .str "B", [0, 0, 0, 0]⟩], []⟩]).nodes =
      ([TopoOp.applyBgp "A" ⟨[], [⟨64, 3, .str "B", [0, 0, 0, 0]⟩], []⟩].map
        opNodeSources).foldl (· ∪ ·) ∅ := by
  have hwf : ∀ op ∈ [TopoOp.applyBgp "A" ⟨[], [⟨64, 3, .str "B", [0, 0, 0, 0]⟩], []⟩],
      op.wf := by
    intro op hop
    rcases List.mem_cons.mp hop with h | h
    · rw [h]
      intro a ha h3
      rcases List.mem_cons.mp ha with h' | h'
      · rw [h']
        exact ⟨"B", rfl⟩
      · exact absurd h' (List.not_mem_nil a)
    · exact absurd h (List.not_mem_nil op)
  exact ⟨hwf, c9_nodes_exactly_sources _ hwf⟩

/-! ## C1: round-trip of the test-suite encoder through the decoder -/

theorem attrs_stop (data : Bytes) (e : Nat) (acc : List BgpPathAttribute) :
    parsePathAttrsLoop data e e acc = .ok (acc, e) := by
  rw [parsePathAttrsLoop.eq_def]
  simp

theorem attrs_step_short (data : Bytes) (offset e : Nat) (acc : List BgpPathAttribute)
    (flags tc alen : Nat) (v : AttrValue)
    (h1 : offset < e) (h2 : ¬e < offset + 2)
    (hb1 : pyByte data offset = some flags) (hb2 : pyByte data (offset + 1) = some tc)
    (hext : flags &&& 16 = 0) (hb3 : pyByte data (offset + 2) = some alen)
    (hlen : ¬e < offset + 3 + alen)
    (hdec : decode_attribute_value tc (pySlice data (offset + 3) (offset + 3 + alen)) =
      .ok v) :
    parsePathAttrsLoop data offset e acc =
      parsePathAttrsLoop data (offset + 3 + alen) e
        (acc ++ [⟨flags, tc, v, pySlice data (offset + 3) (offset + 3 + alen)⟩]) := by
  rw [parsePathAttrsLoop.eq_def, dif_pos h1, if_neg h2, hb1, hb2]
  dsimp only
  rw [if_neg (by simp [hext]), hb3]
  dsimp only
  rw [if_neg hlen, hdec]

theorem nlri_stop (data : Bytes) (offset e : Nat) (acc : List String) (h : ¬offset < e) :
    parseNlriLoop data offset e acc = .ok (acc, offset) := by
  rw [parseNlriLoop.eq_def, dif_neg h]

theorem nlri_step (data : Bytes) (offset e : Nat) (acc : List String) (pl : Nat) (p : String)
    (h : offset < e) (hb : pyByte data offset = some pl)
    (hip : ipv4OfBytes (ljust4 (pySlice data (offset + 1) (offset + 1 + (pl + 7) / 8))) =
      some p) :
    parseNlriLoop data offset e acc =
      parseNlriLoop data (offset + 1 + (pl + 7) / 8) e (acc ++ [p ++ "/" ++ toString pl]) := by
  rw [parseNlriLoop.eq_def, dif_pos h, hb]
  dsimp only
  rw [hip]

/-- Evaluation of the fixed path-attribute region the encoder emits (the
bytes after offset 23 up to 50), independent of the message tail. -/
theorem build_attrs_eval (lb h0 h1 h2 h3 : Nat) (tail : List Nat) :
    parsePathAttrsLoop
      ([255, 255, 255, 255, 255, 255, 255, 255, 255, 255, 255, 255, 255, 255, 255, 255,
        0, lb, 2, 0, 0, 0, 27,
        64, 1, 1, 0,
        64, 2, 6, 2, 2, 253, 233, 253, 234,
        64, 3, 4, h0, h1, h2, h3,
        128, 4, 4, 0, 0, 0, 25] ++ tail) 23 50 [] =
      .ok ([⟨64, 1, .str "IGP", [0]⟩,
        ⟨64, 2, .asList [65001, 65002], [2, 2, 253, 233, 253, 234]⟩,
        ⟨64, 3, .str (ipv4Str h0 h1 h2 h3), [h0, h1, h2, h3]⟩,
        ⟨128, 4, .nat 25, [0, 0, 0, 25]⟩], 50) := by
  rw [attrs_step_short _ 23 50 _ 64 1 1 (.str "IGP") (by norm_num) (by norm_num)
    (by simp [pyByte]) (by simp [pyByte]) (by decide) (by simp [pyByte]) (by norm_num)
    (by simp [pySlice, decode_attribute_value])]
  rw [show (23 + 3 + 1 : Nat) = 27 from rfl]
  rw [attrs_step_short _ 27 50 _ 64 2 6 (.asList [65001, 65002]) (by norm_num) (by norm_num)
    (by simp [pyByte]) (by simp [pyByte]) (by decide) (by simp [pyByte]) (by norm_num)
    (by simp [pySlice, decode_attribute_value, asPathSegments, asPathValues, readU16,
      pyByte, Except.map])]
  rw [show (27 + 3 + 6 : Nat) = 36 from rfl]
  rw [attrs_step_short _ 36 50 _ 64 3 4 (.str (ipv4Str h0 h1 h2 h3)) (by norm_num)
    (by norm_num) (by simp [pyByte]) (by simp [pyByte]) (by decide) (by simp [pyByte])
    (by norm_num)
    (by simp [pySlice, decode_attribute_value, ipv4OfBytes])]
  rw [show (36 + 3 + 4 : Nat) = 43 from rfl]
  rw [attrs_step_short _ 43 50 _ 128 4 4 (.nat 25) (by norm_num) (by norm_num)
    (by simp [pyByte]) (by simp [pyByte]) (by decide) (by simp [pyByte]) (by norm_num)
    (by simp [pySlice, decode_attribute_value, readU32])]
  rw [show (43 + 3 + 4 : Nat) = 50 from rfl]
  rw [attrs_stop]
  simp [pySlice]

/-- C1: for every syntactically valid encoded BGP UPDATE carrying a
NEXT_HOP `h0.h1.h2.h3` and an advertised prefix `p0.p1.p2.p3/n` (mask
`n ≤ 32`; the address bits beyond the `⌈n/8⌉` encoded bytes zero, since
the wire format carries only those bytes), decoding returns an update
whose `next_hop` is exactly the encoded next hop, whose `as_path` is the
encoded `[65001, 65002]`, and whose advertised-prefix sequence contains
the prefix verbatim (it is exactly `["p0.p1.p2.p3/n"]`). -/
theorem c1_bgp_roundtrip (p0 p1 p2 p3 n h0 h1 h2 h3 : Nat) (hn : n ≤ 32)
    (hz0 : (n + 7) / 8 = 0 → p0 = 0) (hz1 : (n + 7) / 8 ≤ 1 → p1 = 0)
    (hz2 : (n + 7) / 8 ≤ 2 → p2 = 0) (hz3 : (n + 7) / 8 ≤ 3 → p3 = 0) :
    ∃ u, parse_bgp_update (build_bgp_update p0 p1 p2 p3 n h0 h1 h2 h3) = .ok u ∧
      u.next_hop = some (.str (ipv4Str h0 h1 h2 h3)) ∧
      u.as_path = .asList [65001, 65002] ∧
      u.nlri = [ipv4Str p0 p1 p2 p3 ++ "/" ++ toString n] := by
  have hcases : (n + 7) / 8 = 0 ∨ (n + 7) / 8 = 1 ∨ (n + 7) / 8 = 2 ∨ (n + 7) / 8 = 3 ∨
      (n + 7) / 8 = 4 := by omega
  rcases hcases with hbl | hbl | hbl | hbl | hbl
  · have hn0 : n = 0 := by omega
    subst hn0
    have e0 := hz0 hbl
    have e1 := hz1 (by omega)
    have e2 := hz2 (by omega)
    have e3 := hz3 (by omega)
    subst e0
    subst e1
    subst e2
    subst e3
    refine ⟨⟨[], [⟨64, 1, .str "IGP", [0]⟩,
      ⟨64, 2, .asList [65001, 65002], [2, 2, 253, 233, 253, 234]⟩,
      ⟨64, 3, .str (ipv4Str h0 h1 h2 h3), [h0, h1, h2, h3]⟩,
      ⟨128, 4, .nat 25, [0, 0, 0, 25]⟩],
      [ipv4Str 0 0 0 0 ++ "/" ++ toString 0]⟩, ?_, ?_, ?_, ?_⟩
    · have hb : build_bgp_update 0 0 0 0 0 h0 h1 h2 h3 =
          [255, 255, 255, 255, 255, 255, 255, 255, 255, 255, 255, 255, 255, 255, 255, 255,
           0, 51, 2, 0, 0, 0, 27, 64, 1, 1, 0, 64, 2, 6, 2, 2, 253, 233, 253, 234,
           64, 3, 4, h0, h1, h2, h3, 128, 4, 4, 0, 0, 0, 25, 0] := by
        simp [build_bgp_update]
      rw [hb]
      have ha : parsePathAttrsLoop
          [255, 255, 255, 255, 255, 255, 255, 255, 255, 255, 255, 255, 255, 255, 255, 255,
           0, 51, 2, 0, 0, 0, 27, 64, 1, 1, 0, 64, 2, 6, 2, 2, 253, 233, 253, 234,
           64, 3, 4, h0, h1, h2, h3, 128, 4, 4, 0, 0, 0, 25, 0] 23 50 [] =
          .ok ([⟨64, 1, .str "IGP", [0]⟩,
            ⟨64, 2, .asList [65001, 65002], [2, 2, 253, 233, 253, 234]⟩,
            ⟨64, 3, .str (ipv4Str h0 h1 h2 h3), [h0, h1, h2, h3]⟩,
            ⟨128, 4, .nat 25, [0, 0, 0, 25]⟩], 50) := by
        have := build_attrs_eval 51 h0 h1 h2 h3 [0]
        simpa using this
      have hw : parseNlriLoop
          [255, 255, 255, 255, 255, 255, 255, 255, 255, 255, 255, 255, 255, 255, 255, 255,
           0, 51, 2, 0, 0, 0, 27, 64, 1, 1, 0, 64, 2, 6, 2, 2, 253, 233, 253, 234,
           64, 3, 4, h0, h1, h2, h3, 128, 4, 4, 0, 0, 0, 25, 0] 21 21 [] =
          .ok ([], 21) := nlri_stop _ _ _ _ (by norm_num)
      have hnl : parseNlriLoop
          [255, 255, 255, 255, 255, 255, 255, 255, 255, 255, 255, 255, 255, 255, 255, 255,
           0, 51, 2, 0, 0, 0, 27, 64, 1, 1, 0, 64, 2, 6, 2, 2, 253, 233, 253, 234,
           64, 3, 4, h0, h1, h2, h3, 128, 4, 4, 0, 0, 0, 25, 0] 50 51 [] =
          .ok ([ipv4Str 0 0 0 0 ++ "/" ++ toString 0], 51) := by
        rw [nlri_step _ 50 51 [] 0 (ipv4Str 0 0 0 0) (by norm_num) (by simp [pyByte])
          (by simp [pySlice, ljust4, ipv4OfBytes])]
        rw [show (50 + 1 + (0 + 7) / 8 : Nat) = 51 from rfl]
        rw [nlri_stop _ _ _ _ (by norm_num)]
        simp
      simp [parse_bgp_update, parse_nlri, parse_path_attributes, readU16, pySlice, pyByte,
        hw, ha, hnl]
    · simp [BgpUpdate.next_hop, BgpUpdate.get_attribute, List.find?]
    · simp [BgpUpdate.as_path, BgpUpdate.get_attribute, List.find?]
    · rfl
  · have e1 := hz1 (by omega)
    have e2 := hz2 (by omega)
    have e3 := hz3 (by omega)
    subst e1
    subst e2
    subst e3
    refine ⟨⟨[], [⟨64, 1, .str "IGP", [0]⟩,
      ⟨64, 2, .asList [65001, 65002], [2, 2, 253, 233, 253, 234]⟩,
      ⟨64, 3, .str (ipv4Str h0 h1 h2 h3), [h0, h1, h2, h3]⟩,
      ⟨128, 4, .nat 25, [0, 0, 0, 25]⟩],
      [ipv4Str p0 0 0 0 ++ "/" ++ toString n]⟩, ?_, ?_, ?_, ?_⟩
    · have hb : build_bgp_update p0 0 0 0 n h0 h1 h2 h3 =
          [255, 255, 255, 255, 255, 255, 255, 255, 255, 255, 255, 255, 255, 255, 255, 255,
           0, 52, 2, 0, 0, 0, 27, 64, 1, 1, 0, 64, 2, 6, 2, 2, 253, 233, 253, 234,
           64, 3, 4, h0, h1, h2, h3, 128, 4, 4, 0, 0, 0, 25, n, p0] := by
        simp [build_bgp_update, hbl]
      rw [hb]
      have ha : parsePathAttrsLoop
          [255, 255, 255, 255, 255, 255, 255, 255, 255, 255, 255, 255, 255, 255, 255, 255,
           0, 52, 2, 0, 0, 0, 27, 64, 1, 1, 0, 64, 2, 6, 2, 2, 253, 233, 253, 234,
           64, 3, 4, h0, h1, h2, h3, 128, 4, 4, 0, 0, 0, 25, n, p0] 23 50 [] =
          .ok ([⟨64, 1, .str "IGP", [0]⟩,
            ⟨64, 2, .asList [65001, 65002], [2, 2, 253, 233, 253, 234]⟩,
            ⟨64, 3, .str (ipv4Str h0 h1 h2 h3), [h0, h1, h2, h3]⟩,
            ⟨128, 4, .nat 25, [0, 0, 0, 25]⟩], 50) := by
        have := build_attrs_eval 52 h0 h1 h2 h3 [n, p0]
        simpa using this
      have hw : parseNlriLoop
          [255, 255, 255, 255, 255, 255, 255, 255, 255, 255, 255, 255, 255, 255, 255, 255,
           0, 52, 2, 0, 0, 0, 27, 64, 1, 1, 0, 64, 2, 6, 2, 2, 253, 233, 253, 234,
           64, 3, 4, h0, h1, h2, h3, 128, 4, 4, 0, 0, 0, 25, n, p0] 21 21 [] =
          .ok ([], 21) := nlri_stop _ _ _ _ (by norm_num)
      have hnl : parseNlriLoop
          [255, 255, 255, 255, 255, 255, 255, 255, 255, 255, 255, 255, 255, 255, 255, 255,
           0, 52, 2, 0, 0, 0, 27, 64, 1, 1, 0, 64, 2, 6, 2, 2, 253, 233, 253, 234,
           64, 3, 4, h0, h1, h2, h3, 128, 4, 4, 0, 0, 0, 25, n, p0] 50 52 [] =
          .ok ([ipv4Str p0 0 0 0 ++ "/" ++ toString n], 52) := by
        rw [nlri_step _ 50 52 [] n (ipv4Str p0 0 0 0) (by norm_num) (by simp [pyByte])
          (by rw [hbl]; simp [pySlice, ljust4, ipv4OfBytes])]
        rw [show (50 + 1 + (n + 7) / 8 : Nat) = 52 from by rw [hbl]]
        rw [nlri_stop _ _ _ _ (by norm_num)]
        simp
      simp [parse_bgp_update, parse_nlri, parse_path_attributes, readU16, pySlice, pyByte,
        hw, ha, hnl]
    · simp [BgpUpdate.next_hop, BgpUpdate.get_attribute, List.find?]
    · simp [BgpUpdate.as_path, BgpUpdate.get_attribute, List.find?]
    · rfl
  · have e2 := hz2 (by omega)
    have e3 := hz3 (by omega)
    subst e2
    subst e3
    refine ⟨⟨[], [⟨64, 1, .str "IGP", [0]⟩,
      ⟨64, 2, .asList [65001, 65002], [2, 2, 253, 233, 253, 234]⟩,
      ⟨64, 3, .str (ipv4Str h0 h1 h2 h3), [h0, h1, h2, h3]⟩,
      ⟨128, 4, .nat 25, [0, 0, 0, 25]⟩],
      [ipv4Str p0 p1 0 0 ++ "/" ++ toString n]⟩, ?_, ?_, ?_, ?_⟩
    · have hb : build_bgp_update p0 p1 0 0 n h0 h1 h2 h3 =
          [255, 255, 255, 255, 255, 255, 255, 255, 255, 255, 255, 255, 255, 255, 255, 255,
           0, 53, 2, 0, 0, 0, 27, 64, 1, 1, 0, 64, 2, 6, 2, 2, 253, 233, 253, 234,
           64, 3, 4, h0, h1, h2, h3, 128, 4, 4, 0, 0, 0, 25, n, p0, p1] := by
        simp [build_bgp_update, hbl]
      rw [hb]
      have ha : parsePathAttrsLoop
          [255, 255, 255, 255, 255, 255, 255, 255, 255, 255, 255, 255, 255, 255, 255, 255,
           0, 53, 2, 0, 0, 0, 27, 64, 1, 1, 0, 64, 2, 6, 2, 2, 253, 233, 253, 234,
           64, 3, 4, h0, h1, h2, h3, 128, 4, 4, 0, 0, 0, 25, n, p0, p1] 23 50 [] =
          .ok ([⟨64, 1, .str "IGP", [0]⟩,
            ⟨64, 2, .asList [65001, 65002], [2, 2, 253, 233, 253, 234]⟩,
            ⟨64, 3, .str (ipv4Str h0 h1 h2 h3), [h0, h1, h2, h3]⟩,
            ⟨128, 4, .nat 25, [0, 0, 0, 25]⟩], 50) := by
        have := build_attrs_eval 53 h0 h1 h2 h3 [n, p0, p1]
        simpa using this
      have hw : parseNlriLoop
          [255, 255, 255, 255, 255, 255, 255, 255, 255, 255, 255, 255, 255, 255, 255, 255,
           0, 53, 2, 0, 0, 0, 27, 64, 1, 1, 0, 64, 2, 6, 2, 2, 253, 233, 253, 234,
           64, 3, 4, h0, h1, h2, h3, 128, 4, 4, 0, 0, 0, 25, n, p0, p1] 21 21 [] =
          .ok ([], 21) := nlri_stop _ _ _ _ (by norm_num)
      have hnl : parseNlriLoop
          [255, 255, 255, 255, 255, 255, 255, 255, 255, 255, 255, 255, 255, 255, 255, 255,
           0, 53, 2, 0, 0, 0, 27, 64, 1, 1, 0, 64, 2, 6, 2, 2, 253, 233, 253, 234,
           64, 3, 4, h0, h1, h2, h3, 128, 4, 4, 0, 0, 0, 25, n, p0, p1] 50 53 [] =
          .ok ([ipv4Str p0 p1 0 0 ++ "/" ++ toString n], 53) := by
        rw [nlri_step _ 50 53 [] n (ipv4Str p0 p1 0 0) (by norm_num) (by simp [pyByte])
          (by rw [hbl]; simp [pySlice, ljust4, ipv4OfBytes])]
        rw [show (50 + 1 + (n + 7) / 8 : Nat) = 53 from by rw [hbl]]
        rw [nlri_stop _ _ _ _ (by norm_num)]
        simp
      simp [parse_bgp_update, parse_nlri, parse_path_attributes, readU16, pySlice, pyByte,
        hw, ha, hnl]
    · simp [BgpUpdate.next_hop, BgpUpdate.get_attribute, List.find?]
    · simp [BgpUpdate.as_path, BgpUpdate.get_attribute, List.find?]
    · rfl
  · have e3 := hz3 (by omega)
    subst e3
    refine ⟨⟨[], [⟨64, 1, .str "IGP", [0]⟩,
      ⟨64, 2, .asList [65001, 65002], [2, 2, 253, 233, 253, 234]⟩,
      ⟨64, 3, .str (ipv4Str h0 h1 h2 h3), [h0, h1, h2, h3]⟩,
      ⟨128, 4, .nat 25, [0, 0, 0, 25]⟩],
      [ipv4Str p0 p1 p2 0 ++ "/" ++ toString n]⟩, ?_, ?_, ?_, ?_⟩
    · have hb : build_bgp_update p0 p1 p2 0 n h0 h1 h2 h3 =
          [255, 255, 255, 255, 255, 255, 255, 255, 255, 255, 255, 255, 255, 255, 255, 255,
           0, 54, 2, 0, 0, 0, 27, 64, 1, 1, 0, 64, 2, 6, 2, 2, 253, 233, 253, 234,
           64, 3, 4, h0, h1, h2, h3, 128, 4, 4, 0, 0, 0, 25, n, p0, p1, p2] := by
        simp [build_bgp_update, hbl]
      rw [hb]
      have ha : parsePathAttrsLoop
          [255, 255, 255, 255, 255, 255, 255, 255, 255, 255, 255, 255, 255, 255, 255, 255,
           0, 54, 2, 0, 0, 0, 27, 64, 1, 1, 0, 64, 2, 6, 2, 2, 253, 233, 253, 234,
           64, 3, 4, h0, h1, h2, h3, 128, 4, 4, 0, 0, 0, 25, n, p0, p1, p2] 23 50 [] =
          .ok ([⟨64, 1, .str "IGP", [0]⟩,
            ⟨64, 2, .asList [65001, 65002], [2, 2, 253, 233, 253, 234]⟩,
            ⟨64, 3, .str (ipv4Str h0 h1 h2 h3), [h0, h1, h2, h3]⟩,
            ⟨128, 4, .nat 25, [0, 0, 0, 25]⟩], 50) := by
        have := build_attrs_eval 54 h0 h1 h2 h3 [n, p0, p1, p2]
        simpa using this
      have hw : parseNlriLoop
          [255, 255, 255, 255, 255, 255, 255, 255, 255, 255, 255, 255, 255, 255, 255, 255,
           0, 54, 2, 0, 0, 0, 27, 64, 1, 1, 0, 64, 2, 6, 2, 2, 253, 233, 253, 234,
           64, 3, 4, h0, h1, h2, h3, 128, 4, 4, 0, 0, 0, 25, n, p0, p1, p2] 21 21 [] =
          .ok ([], 21) := nlri_stop _ _ _ _ (by norm_num)
      have hnl : parseNlriLoop
          [255, 255, 255, 255, 255, 255, 255, 255, 255, 255, 255, 255, 255, 255, 255, 255,
           0, 54, 2, 0, 0, 0, 27, 64, 1, 1, 0, 64, 2, 6, 2, 2, 253, 233, 253, 234,
           64, 3, 4, h0, h1, h2, h3, 128, 4, 4, 0, 0, 0, 25, n, p0, p1, p2] 50 54 [] =
          .ok ([ipv4Str p0 p1 p2 0 ++ "/" ++ toString n], 54) := by
        rw [nlri_step _ 50 54 [] n (ipv4Str p0 p1 p2 0) (by norm_num) (by simp [pyByte])
          (by rw [hbl]; simp [pySlice, ljust4, ipv4OfBytes])]
        rw [show (50 + 1 + (n + 7) / 8 : Nat) = 54 from by rw [hbl]]
        rw [nlri_stop _ _ _ _ (by norm_num)]
        simp
      simp [parse_bgp_update, parse_nlri, parse_path_attributes, readU16, pySlice, pyByte,
        hw, ha, hnl]
    · simp [BgpUpdate.next_hop, BgpUpdate.get_attribute, List.find?]
    · simp [BgpUpdate.as_path, BgpUpdate.get_attribute, List.find?]
    · rfl
  · refine ⟨⟨[], [⟨64, 1, .str "IGP", [0]⟩,
      ⟨64, 2, .asList [65001, 65002], [2, 2, 253, 233, 253, 234]⟩,
      ⟨64, 3, .str (ipv4Str h0 h1 h2 h3), [h0, h1, h2, h3]⟩,
      ⟨128, 4, .nat 25, [0, 0, 0, 25]⟩],
      [ipv4Str p0 p1 p2 p3 ++ "/" ++ toString n]⟩, ?_, ?_, ?_, ?_⟩
    · have hb : build_bgp_update p0 p1 p2 p3 n h0 h1 h2 h3 =
          [255, 255, 255, 255, 255, 255, 255, 255, 255, 255, 255, 255, 255, 255, 255, 255,
           0, 55, 2, 0, 0, 0, 27, 64, 1, 1, 0, 64, 2, 6, 2, 2, 253, 233, 253, 234,
           64, 3, 4, h0, h1, h2, h3, 128, 4, 4, 0, 0, 0, 25, n, p0, p1, p2, p3] := by
        simp [build_bgp_update, hbl]
      rw [hb]
      have ha : parsePathAttrsLoop
          [255, 255, 255, 255, 255, 255, 255, 255, 255, 255, 255, 255, 255, 255, 255, 255,
           0, 55, 2, 0, 0, 0, 27, 64, 1, 1, 0, 64, 2, 6, 2, 2, 253, 233, 253, 234,
           64, 3, 4, h0, h1, h2, h3, 128, 4, 4, 0, 0, 0, 25, n, p0, p1, p2, p3] 23 50 [] =
          .ok ([⟨64, 1, .str "IGP", [0]⟩,
            ⟨64, 2, .asList [65001, 65002], [2, 2, 253, 233, 253, 234]⟩,
            ⟨64, 3, .str (ipv4Str h0 h1 h2 h3), [h0, h1, h2, h3]⟩,
            ⟨128, 4, .nat 25, [0, 0, 0, 25]⟩], 50) := by
        have := build_attrs_eval 55 h0 h1 h2 h3 [n, p0, p1, p2, p3]
        simpa using this
      have hw : parseNlriLoop
          [255, 255, 255, 255, 255, 255, 255, 255, 255, 255, 255, 255, 255, 255, 255, 255,
           0, 55, 2, 0, 0, 0, 27, 64, 1, 1, 0, 64, 2, 6, 2, 2, 253, 233, 253, 234,
           64, 3, 4, h0, h1, h2, h3, 128, 4, 4, 0, 0, 0, 25, n, p0, p1, p2, p3] 21 21 [] =
          .ok ([], 21) := nlri_stop _ _ _ _ (by norm_num)
      have hnl : parseNlriLoop
          [255, 255, 255, 255, 255, 255, 255, 255, 255, 255, 255, 255, 255, 255, 255, 255,
           0, 55, 2, 0, 0, 0, 27, 64, 1, 1, 0, 64, 2, 6, 2, 2, 253, 233, 253, 234,
           64, 3, 4, h0, h1, h2, h3, 128, 4, 4, 0, 0, 0, 25, n, p0, p1, p2, p3] 50 55 [] =
          .ok ([ipv4Str p0 p1 p2 p3 ++ "/" ++ toString n], 55) := by
        rw [nlri_step _ 50 55 [] n (ipv4Str p0 p1 p2 p3) (by norm_num) (by simp [pyByte])
          (by rw [hbl]; simp [pySlice, ljust4, ipv4OfBytes])]
        rw [show (50 + 1 + (n + 7) / 8 : Nat) = 55 from by rw [hbl]]
        rw [nlri_stop _ _ _ _ (by norm_num)]
        simp
      simp [parse_bgp_update, parse_nlri, parse_path_attributes, readU16, pySlice, pyByte,
        hw, ha, hnl]
    · simp [BgpUpdate.next_hop, BgpUpdate.get_attribute, List.find?]
    · simp [BgpUpdate.as_path, BgpUpdate.get_attribute, List.find?]
    · rfl

/-- C1 witness: the concrete scenario — prefix 10.0.0.0/24, next hop
192.0.2.1, AS path [65001, 65002]. -/
theorem c1_witness :
    (∃ u, parse_bgp_update (build_bgp_update 10 0 0 0 24 192 0 2 1) = .ok u ∧
      u.next_hop = some (.str (ipv4Str 192 0 2 1)) ∧
      u.as_path = .asList [65001, 65002] ∧
      u.nlri = [ipv4Str 10 0 0 0 ++ "/" ++ toString 24]) ∧
    ipv4Str 192 0 2 1 = "192.0.2.1" ∧
    ipv4Str 10 0 0 0 ++ "/" ++ toString 24 = "10.0.0.0/24" :=
  ⟨c1_bgp_roundtrip 10 0 0 0 24 192 0 2 1 (by decide) (by decide) (by decide) (by decide)
    (by decide), by decide, by decide⟩

/-! ## C3: walks, queue order and the search invariants -/

theorem lookupAssoc_mem {β : Type} {l : List ((String × String) × β)}
    {k : String × String} {v : β} (h : lookupAssoc l k = some v) : (k, v) ∈ l := by
  unfold lookupAssoc at h
  cases hf : l.find? (fun e => e.1 = k) with
  | none => rw [hf] at h; exact absurd h (by simp)
  | some e =>
    rw [hf] at h
    simp only [Option.map_some'] at h
    have hmem := List.mem_of_find?_eq_some hf
    have hkey := List.find?_some hf
    simp only [decide_eq_true_eq] at hkey
    injection h with h
    have : (k, v) = e := by
      rw [← hkey, ← h]
    rw [this]
    exact hmem

theorem walk_head {links : List ((String × String) × LinkMetadata)} {a c : String}
    {p : List String} (h : Walk links a c p) : ∃ q, p = a :: q := by
  cases h with
  | single => exact ⟨[], rfl⟩
  | cons md hedge hw => exact ⟨_, rfl⟩

theorem walk_getLast {links : List ((String × String) × LinkMetadata)} {a c : String}
    {p : List String} (h : Walk links a c p) : p.getLast? = some c := by
  induction h with
  | single a => rfl
  | cons md hedge hw ih =>
    obtain ⟨q, rfl⟩ := walk_head hw
    rw [List.getLast?_cons_cons]
    exact ih

theorem walk_append {links : List ((String × String) × LinkMetadata)} {a b c : String}
    {p : List String} {md : LinkMetadata} (h : Walk links a b p)
    (hedge : lookupAssoc links (b, c) = some md) : Walk links a c (p ++ [c]) := by
  induction h with
  | single a => exact .cons md hedge (.single c)
  | cons md' hedge' hw ih => exact .cons md' hedge' (ih hedge)

theorem walkCost_cons (links : List ((String × String) × LinkMetadata)) (a b : String)
    (q : List String) (md : LinkMetadata) (hedge : lookupAssoc links (a, b) = some md) :
    walkCost links (a :: b :: q) = md.metric + walkCost links (b :: q) := by
  rw [walkCost, hedge]

theorem walkCost_nonneg {links : List ((String × String) × LinkMetadata)}
    (hnn : NonnegLinks links) {a c : String} {p : List String} (h : Walk links a c p) :
    0 ≤ walkCost links p := by
  induction h with
  | single a =>
    have h0 : walkCost links [a] = 0 := rfl
    rw [h0]
  | cons md hedge hw ih =>
    obtain ⟨q, rfl⟩ := walk_head hw
    rw [walkCost_cons _ _ _ _ _ hedge]
    have hm : 0 ≤ md.metric := hnn _ (lookupAssoc_mem hedge)
    linarith

theorem walkCost_append {links : List ((String × String) × LinkMetadata)} {a b c : String}
    {p : List String} {md : LinkMetadata} (h : Walk links a b p)
    (hedge : lookupAssoc links (b, c) = some md) :
    walkCost links (p ++ [c]) = walkCost links p + md.metric := by
  induction h with
  | single a =>
    rw [List.singleton_append, walkCost_cons _ _ _ _ _ hedge]
    have h1 : walkCost links [c] = 0 := rfl
    have h2 : walkCost links [a] = 0 := rfl
    rw [h1, h2]
    ring
  | cons md' hedge' hw ih =>
    obtain ⟨q, rfl⟩ := walk_head hw
    rw [List.cons_append, List.cons_append, walkCost_cons _ _ _ _ _ hedge']
    have ih' := ih hedge
    rw [List.cons_append] at ih'
    rw [ih', walkCost_cons _ _ _ _ _ hedge']
    ring

theorem neighbours_lookup {links : List ((String × String) × LinkMetadata)}
    (hnd : NodupKeys links) {v w : String} {md : LinkMetadata}
    (h : (w, md) ∈ neighboursWithMetadata links v) : lookupAssoc links (v, w) = some md := by
  unfold NodupKeys at hnd
  induction links with
  | nil => exact absurd h (by simp [neighboursWithMetadata])
  | cons e rest ih =>
    simp only [neighboursWithMetadata, List.filterMap_cons] at h
    simp only [List.map_cons, List.nodup_cons] at hnd
    by_cases he : e.1.1 = v
    · rw [if_pos he] at h
      rcases List.mem_cons.mp h with h1 | h1
      · have h2 : e.1.2 = w ∧ e.2 = md := by
          constructor
          · exact congrArg Prod.fst h1.symm
          · exact congrArg Prod.snd h1.symm
        have hk : e.1 = (v, w) := by
          rw [Prod.ext_iff]
          exact ⟨he, h2.1⟩
        simp [lookupAssoc, List.find?, hk, h2.2]
      · have hrest := ih hnd.2 h1
        have hne : e.1 ≠ (v, w) := by
          intro hc
          apply hnd.1
          have := lookupAssoc_mem hrest
          rw [hc]
          exact List.mem_map.mpr ⟨((v, w), md), this, rfl⟩
        simp only [lookupAssoc, List.find?]
        rw [show (decide (e.1 = (v, w))) = false from decide_eq_false hne]
        exact hrest
    · rw [if_neg he] at h
      have hrest := ih hnd.2 h
      have hne : e.1 ≠ (v, w) := by
        intro hc
        exact he (congrArg Prod.fst hc)
      simp only [lookupAssoc, List.find?]
      rw [show (decide (e.1 = (v, w))) = false from decide_eq_false hne]
      exact hrest

theorem lookup_neighbours {links : List ((String × String) × LinkMetadata)}
    {v w : String} {md : LinkMetadata} (h : lookupAssoc links (v, w) = some md) :
    (w, md) ∈ neighboursWithMetadata links v := by
  induction links with
  | nil => exact absurd h (by simp [lookupAssoc])
  | cons e rest ih =>
    simp only [lookupAssoc, List.find?] at h
    by_cases he : e.1 = (v, w)
    · rw [show (decide (e.1 = (v, w))) = true from decide_eq_true he] at h
      simp only [Option.map_some'] at h
      simp only [neighboursWithMetadata, List.filterMap_cons]
      rw [if_pos (congrArg Prod.fst he)]
      injection h with h
      have hwmd : (e.1.2, e.2) = (w, md) := by
        rw [Prod.ext_iff]
        exact ⟨congrArg Prod.snd he, h⟩
      rw [← hwmd]
      exact List.mem_cons_self _ _
    · rw [show (decide (e.1 = (v, w))) = false from decide_eq_false he] at h
      have hrest := ih h
      simp only [neighboursWithMetadata, List.filterMap_cons]
      by_cases he1 : e.1.1 = v
      · rw [if_pos he1]
        exact List.mem_cons_of_mem _ hrest
      · rw [if_neg he1]
        exact hrest

theorem visitedLookup_set_self (vis : List (String × ℚ)) (k : String) (c : ℚ) :
    visitedLookup (visitedSet vis k c) k = some c := by
  induction vis with
  | nil => simp [visitedSet, visitedLookup]
  | cons e rest ih =>
    by_cases h : e.1 = k
    · simp [visitedSet, visitedLookup, h]
    · simpa [visitedSet, visitedLookup, h, List.find?] using ih

theorem visitedLookup_set_ne (vis : List (String × ℚ)) (k k' : String) (c : ℚ)
    (h : k' ≠ k) : visitedLookup (visitedSet vis k c) k' = visitedLookup vis k' := by
  induction vis with
  | nil => simp [visitedSet, visitedLookup, List.find?, Ne.symm h]
  | cons e rest ih =>
    by_cases he : e.1 = k
    · by_cases he' : e.1 = k'
      · exact absurd (he'.symm.trans he) h
      · simp [visitedSet, visitedLookup, he, he', List.find?, Ne.symm h]
    · by_cases he' : e.1 = k'
      · simp [visitedSet, visitedLookup, he, he', List.find?, h]
      · simpa [visitedSet, visitedLookup, he, he', List.find?, h] using ih

theorem qLt_cost {a b : QEntry} (h : qLt a b = true) : a.cost ≤ b.cost := by
  unfold qLt at h
  rcases Bool.or_eq_true .. |>.mp h with h1 | h1
  · exact le_of_lt (of_decide_eq_true h1)
  · exact le_of_eq (of_decide_eq_true (Bool.and_eq_true .. |>.mp h1).1)

theorem not_qLt_cost {a b : QEntry} (h : qLt a b = false) : b.cost ≤ a.cost := by
  unfold qLt at h
  rcases Bool.or_eq_false_iff.mp h with ⟨h1, _⟩
  exact le_of_not_lt (of_decide_eq_false h1)

theorem popMin_none {q : List QEntry} (h : popMin q = none) : q = [] := by
  cases q with
  | nil => rfl
  | cons e es =>
    rw [popMin] at h
    cases hp : popMin es with
    | none => rw [hp] at h; exact absurd h (by simp)
    | some pr =>
      obtain ⟨m, r⟩ := pr
      rw [hp] at h
      dsimp only at h
      by_cases hl : qLt m e = true
      · rw [if_pos hl] at h
        exact absurd h (by simp)
      · rw [if_neg hl] at h
        exact absurd h (by simp)

theorem popMin_spec {q : List QEntry} {e : QEntry} {rest : List QEntry}
    (h : popMin q = some (e, rest)) :
    (∃ l1 l2, q = l1 ++ e :: l2 ∧ rest = l1 ++ l2) ∧ ∀ x ∈ q, e.cost ≤ x.cost := by
  induction q generalizing e rest with
  | nil => exact absurd h (by simp [popMin])
  | cons a es ih =>
    rw [popMin] at h
    cases hp : popMin es with
    | none =>
      rw [hp] at h
      injection h with h'
      have ha : a = e := congrArg Prod.fst h'
      have hr : [] = rest := congrArg Prod.snd h'
      have hes : es = [] := popMin_none hp
      subst ha
      subst hes
      subst hr
      refine ⟨⟨[], [], rfl, rfl⟩, ?_⟩
      intro x hx
      rcases List.mem_cons.mp hx with h1 | h1
      · rw [h1]
      · exact absurd h1 (List.not_mem_nil x)
    | some pr =>
      obtain ⟨m, r⟩ := pr
      rw [hp] at h
      dsimp only at h
      obtain ⟨⟨l1, l2, hq, hrest⟩, hmin⟩ := ih hp
      by_cases hl : qLt m a = true
      · rw [if_pos hl] at h
        injection h with h'
        have hm : m = e := congrArg Prod.fst h'
        have hr : a :: r = rest := congrArg Prod.snd h'
        refine ⟨⟨a :: l1, l2, by simp [hq, hm], by simp [← hr, hrest]⟩, ?_⟩
        intro x hx
        rcases List.mem_cons.mp hx with h1 | h1
        · rw [h1, ← hm]
          exact qLt_cost hl
        · rw [← hm]
          exact hmin x h1
      · rw [if_neg hl] at h
        injection h with h'
        have hm : a = e := congrArg Prod.fst h'
        have hr : es = rest := congrArg Prod.snd h'
        subst hm
        have hl' : qLt m a = false := by simpa using hl
        refine ⟨⟨[], es, rfl, by simp [← hr]⟩, ?_⟩
        intro x hx
        rcases List.mem_cons.mp hx with h1 | h1
        · rw [h1]
        · calc a.cost ≤ m.cost := not_qLt_cost hl'
            _ ≤ x.cost := hmin x h1

/-! ## Relaxation-step equations and invariant preservation -/

theorem relaxStep_eq (c : ℚ) (path : List String) (q : List QEntry)
    (vis : List (String × ℚ)) (nb : String × LinkMetadata) :
    relaxStep c path (q, vis) nb =
      if (match visitedLookup vis nb.1 with
          | none => true
          | some d => decide (c + nb.2.metric < d)) = true then
        (q ++ [QEntry.mk (c + nb.2.metric) nb.1 (path ++ [nb.1])],
          visitedSet vis nb.1 (c + nb.2.metric))
      else (q, vis) := rfl

theorem relaxStep_push {c : ℚ} {path : List String} {q : List QEntry}
    {vis : List (String × ℚ)} {nb : String × LinkMetadata}
    (h : ∀ d, visitedLookup vis nb.1 = some d → c + nb.2.metric < d) :
    relaxStep c path (q, vis) nb =
      (q ++ [QEntry.mk (c + nb.2.metric) nb.1 (path ++ [nb.1])],
        visitedSet vis nb.1 (c + nb.2.metric)) := by
  rw [relaxStep_eq]
  cases hlk : visitedLookup vis nb.1 with
  | none => simp
  | some d0 => simp [h d0 hlk]

theorem relaxStep_nopush {c : ℚ} {path : List String} {q : List QEntry}
    {vis : List (String × ℚ)} {nb : String × LinkMetadata} {d : ℚ}
    (hlk : visitedLookup vis nb.1 = some d) (h : ¬ c + nb.2.metric < d) :
    relaxStep c path (q, vis) nb = (q, vis) := by
  rw [relaxStep_eq, hlk]
  simp [h]

theorem relaxedAt_mono {links : List ((String × String) × LinkMetadata)}
    {vis vis' : List (String × ℚ)}
    (hmono : ∀ v d, visitedLookup vis v = some d →
      ∃ d', visitedLookup vis' v = some d' ∧ d' ≤ d)
    {v : String} {d : ℚ} (h : RelaxedAt links vis v d) : RelaxedAt links vis' v d := by
  intro w md hedge
  obtain ⟨dw, hw, hle⟩ := h w md hedge
  obtain ⟨dw', hw', hle'⟩ := hmono w dw hw
  exact ⟨dw', hw', le_trans hle' hle⟩

theorem relax_step_push_core
    {links : List ((String × String) × LinkMetadata)} {src dst x : String} {c : ℚ}
    {path : List String} (hnn : NonnegLinks links)
    (hwalk : Walk links src x path) (hcost : walkCost links path = c)
    (nb : String × LinkMetadata) (hedge : lookupAssoc links (x, nb.1) = some nb.2)
    (q : List QEntry) (vis : List (String × ℚ))
    (hq : QInv links src q vis) (hV : VInv links src vis)
    (hsrc : visitedLookup vis src = some 0)
    (hI6 : ∀ v d, visitedLookup vis v = some d → v ≠ x →
      (∃ e ∈ q, e.node = v ∧ e.cost = d) ∨ RelaxedAt links vis v d)
    (hdst : DstInv dst q vis)
    (hvx : ∃ dx, visitedLookup vis x = some dx ∧ dx ≤ c)
    (hcond : ∀ d, visitedLookup vis nb.1 = some d → c + nb.2.metric < d) :
    RelaxOut links src dst x c [nb] q vis (relaxStep c path (q, vis) nb) := by
  obtain ⟨dx, hdx, hdxc⟩ := hvx
  have hm0 : 0 ≤ nb.2.metric := hnn _ (lookupAssoc_mem hedge)
  have hc0 : 0 ≤ c := by rw [← hcost]; exact walkCost_nonneg hnn hwalk
  have hxne : nb.1 ≠ x := by
    intro hcx
    have h1 := hcond dx (by rw [hcx]; exact hdx)
    linarith
  rw [relaxStep_push hcond]
  have hself : visitedLookup (visitedSet vis nb.1 (c + nb.2.metric)) nb.1
      = some (c + nb.2.metric) := visitedLookup_set_self vis nb.1 _
  have hneq : ∀ v : String, v ≠ nb.1 →
      visitedLookup (visitedSet vis nb.1 (c + nb.2.metric)) v = visitedLookup vis v :=
    fun v hv => visitedLookup_set_ne vis nb.1 v _ hv
  have hmono : ∀ v d, visitedLookup vis v = some d →
      ∃ d', visitedLookup (visitedSet vis nb.1 (c + nb.2.metric)) v = some d' ∧ d' ≤ d := by
    intro v d hvd
    by_cases hv : v = nb.1
    · subst hv
      exact ⟨c + nb.2.metric, hself, le_of_lt (hcond d hvd)⟩
    · exact ⟨d, (hneq v hv).trans hvd, le_rfl⟩
  have hwalkE : Walk links src nb.1 (path ++ [nb.1]) := walk_append hwalk hedge
  have hcostE : walkCost links (path ++ [nb.1]) = c + nb.2.metric := by
    rw [walkCost_append hwalk hedge, hcost]
  unfold RelaxOut
  dsimp only
  refine ⟨?_, ?_, ?_, ?_, ?_, ?_, hmono, ?_, ?_⟩
  · intro e he
    rcases List.mem_append.mp he with h1 | h1
    · obtain ⟨hw, hc, d1, hd1, hle⟩ := hq e h1
      obtain ⟨d2, hd2, hle2⟩ := hmono e.node d1 hd1
      exact ⟨hw, hc, d2, hd2, le_trans hle2 hle⟩
    · rw [List.mem_singleton] at h1
      subst h1
      exact ⟨hwalkE, hcostE, c + nb.2.metric, hself, le_rfl⟩
  · intro v d hvd
    by_cases hv : v = nb.1
    · subst hv
      rw [hself] at hvd
      injection hvd with hvd
      exact ⟨path ++ [nb.1], hwalkE, by rw [hcostE, hvd]⟩
    · rw [hneq v hv] at hvd
      exact hV v d hvd
  · have hsne : src ≠ nb.1 := by
      intro hc'
      have h1 := hcond 0 (by rw [← hc']; exact hsrc)
      linarith
    rw [hneq src hsne]
    exact hsrc
  · intro v d hvd hvnx
    by_cases hv : v = nb.1
    · subst hv
      rw [hself] at hvd
      injection hvd with hvd
      left
      exact ⟨QEntry.mk (c + nb.2.metric) nb.1 (path ++ [nb.1]),
        List.mem_append_right _ (List.mem_singleton_self _), rfl, hvd⟩
    · rw [hneq v hv] at hvd
      rcases hI6 v d hvd hvnx with ⟨e, he, hn, hc'⟩ | hrel
      · left
        exact ⟨e, List.mem_append_left _ he, hn, hc'⟩
      · right
        exact relaxedAt_mono hmono hrel
  · intro d hvd
    by_cases hv : dst = nb.1
    · subst hv
      rw [hself] at hvd
      injection hvd with hvd
      exact ⟨QEntry.mk (c + nb.2.metric) nb.1 (path ++ [nb.1]),
        List.mem_append_right _ (List.mem_singleton_self _), rfl, hvd⟩
    · rw [hneq dst hv] at hvd
      obtain ⟨e, he, hn, hc'⟩ := hdst d hvd
      exact ⟨e, List.mem_append_left _ he, hn, hc'⟩
  · intro nb' hnb'
    rw [List.mem_singleton] at hnb'
    subst hnb'
    exact ⟨c + nb'.2.metric, hself, le_rfl⟩
  · intro y hy
    exact List.mem_append_left _ hy
  · exact hneq x (Ne.symm hxne)

theorem relax_step_preserves
    {links : List ((String × String) × LinkMetadata)} {src dst x : String} {c : ℚ}
    {path : List String} (hnn : NonnegLinks links)
    (hwalk : Walk links src x path) (hcost : walkCost links path = c)
    (nb : String × LinkMetadata) (hedge : lookupAssoc links (x, nb.1) = some nb.2)
    (q : List QEntry) (vis : List (String × ℚ))
    (hq : QInv links src q vis) (hV : VInv links src vis)
    (hsrc : visitedLookup vis src = some 0)
    (hI6 : ∀ v d, visitedLookup vis v = some d → v ≠ x →
      (∃ e ∈ q, e.node = v ∧ e.cost = d) ∨ RelaxedAt links vis v d)
    (hdst : DstInv dst q vis)
    (hvx : ∃ dx, visitedLookup vis x = some dx ∧ dx ≤ c) :
    RelaxOut links src dst x c [nb] q vis (relaxStep c path (q, vis) nb) := by
  by_cases hc : ∀ d, visitedLookup vis nb.1 = some d → c + nb.2.metric < d
  · exact relax_step_push_core hnn hwalk hcost nb hedge q vis hq hV hsrc hI6 hdst hvx hc
  · push_neg at hc
    obtain ⟨d0, hlk, hpd⟩ := hc
    rw [relaxStep_nopush hlk (not_lt.mpr hpd)]
    unfold RelaxOut
    dsimp only
    refine ⟨hq, hV, hsrc, hI6, hdst, ?_, ?_, ?_, rfl⟩
    · intro nb' hnb'
      rw [List.mem_singleton] at hnb'
      subst hnb'
      exact ⟨d0, hlk, hpd⟩
    · intro v d h
      exact ⟨d, h, le_rfl⟩
    · intro y hy
      exact hy

theorem relax_fold_preserves
    {links : List ((String × String) × LinkMetadata)} {src dst x : String} {c : ℚ}
    {path : List String} (hnn : NonnegLinks links)
    (hwalk : Walk links src x path) (hcost : walkCost links path = c) :
    ∀ (ns : List (String × LinkMetadata)),
      (∀ nb ∈ ns, lookupAssoc links (x, nb.1) = some nb.2) →
      ∀ (q : List QEntry) (vis : List (String × ℚ)),
        QInv links src q vis → VInv links src vis →
        visitedLookup vis src = some 0 →
        (∀ v d, visitedLookup vis v = some d → v ≠ x →
          (∃ e ∈ q, e.node = v ∧ e.cost = d) ∨ RelaxedAt links vis v d) →
        DstInv dst q vis →
        (∃ dx, visitedLookup vis x = some dx ∧ dx ≤ c) →
        RelaxOut links src dst x c ns q vis (ns.foldl (relaxStep c path) (q, vis)) := by
  intro ns
  induction ns with
  | nil =>
    intro _ q vis hq hV hsrc hI6 hdst hvx
    unfold RelaxOut
    dsimp only [List.foldl_nil]
    exact ⟨hq, hV, hsrc, hI6, hdst, by simp, fun v d h => ⟨d, h, le_rfl⟩,
      fun y hy => hy, rfl⟩
  | cons nb ns' ih =>
    intro hns q vis hq hV hsrc hI6 hdst hvx
    rcases hst1 : relaxStep c path (q, vis) nb with ⟨q1, vis1⟩
    have hstep := relax_step_preserves hnn hwalk hcost nb
      (hns nb (List.mem_cons_self _ _)) q vis hq hV hsrc hI6 hdst hvx
    rw [hst1] at hstep
    obtain ⟨s1, s2, s3, s4, s5, s6, s7, s8, s9⟩ := hstep
    have hns' : ∀ nb' ∈ ns', lookupAssoc links (x, nb'.1) = some nb'.2 :=
      fun nb' h => hns nb' (List.mem_cons_of_mem _ h)
    have s9' : visitedLookup vis1 x = visitedLookup vis x := s9
    have hvx' : ∃ dx, visitedLookup vis1 x = some dx ∧ dx ≤ c := by
      obtain ⟨dx, hdx, hdxc⟩ := hvx
      refine ⟨dx, ?_, hdxc⟩
      rw [s9']
      exact hdx
    have hih := ih hns' q1 vis1 s1 s2 s3 s4 s5 hvx'
    obtain ⟨t1, t2, t3, t4, t5, t6, t7, t8, t9⟩ := hih
    rw [List.foldl_cons, hst1]
    unfold RelaxOut
    refine ⟨t1, t2, t3, t4, t5, ?_, ?_, ?_, ?_⟩
    · intro nb' hnb'
      rcases List.mem_cons.mp hnb' with h1 | h1
      · subst h1
        obtain ⟨dw, hw, hle⟩ := s6 nb' (List.mem_singleton_self _)
        obtain ⟨dw', hw', hle'⟩ := t7 nb'.1 dw hw
        exact ⟨dw', hw', le_trans hle' hle⟩
      · exact t6 nb' h1
    · intro v d hvd
      obtain ⟨d1, hd1, hle1⟩ := s7 v d hvd
      obtain ⟨d2, hd2, hle2⟩ := t7 v d1 hd1
      exact ⟨d2, hd2, le_trans hle2 hle1⟩
    · intro y hy
      exact t8 y (s8 y hy)
    · exact t9.trans s9'

theorem dijkstra_inv_step
    {links : List ((String × String) × LinkMetadata)} {src dst : String}
    (hnn : NonnegLinks links) (hnd : NodupKeys links)
    {queue : List QEntry} {visited : List (String × ℚ)}
    (hinv : DijkstraInv links src dst queue visited)
    {e : QEntry} {rest : List QEntry} (hpop : popMin queue = some (e, rest))
    (hd : e.node ≠ dst) :
    DijkstraInv links src dst
      (relaxAll links e.cost e.node e.path rest visited).1
      (relaxAll links e.cost e.node e.path rest visited).2 := by
  unfold relaxAll
  obtain ⟨hQ, hV, hsrc, hI6, hDst⟩ := hinv
  obtain ⟨⟨l1, l2, hqeq, hreq⟩, hmin⟩ := popMin_spec hpop
  have hmemq : e ∈ queue := by
    rw [hqeq]
    exact List.mem_append_right _ (List.mem_cons_self _ _)
  have hrest_sub : ∀ y ∈ rest, y ∈ queue := by
    intro y hy
    rw [hreq] at hy
    rw [hqeq]
    rcases List.mem_append.mp hy with h1 | h1
    · exact List.mem_append_left _ h1
    · exact List.mem_append_right _ (List.mem_cons_of_mem _ h1)
  obtain ⟨hwalk, hcost, dx, hdx, hdxc⟩ := hQ e hmemq
  have hQrest : QInv links src rest visited := fun y hy => hQ y (hrest_sub y hy)
  have hI6x : ∀ v d, visitedLookup visited v = some d → v ≠ e.node →
      (∃ y ∈ rest, y.node = v ∧ y.cost = d) ∨ RelaxedAt links visited v d := by
    intro v d hvd hvne
    rcases hI6 v d hvd with ⟨y, hy, hyn, hyc⟩ | hrel
    · left
      rw [hqeq] at hy
      rcases List.mem_append.mp hy with h1 | h1
      · exact ⟨y, by rw [hreq]; exact List.mem_append_left _ h1, hyn, hyc⟩
      · rcases List.mem_cons.mp h1 with h2 | h2
        · subst h2
          exact absurd hyn.symm hvne
        · exact ⟨y, by rw [hreq]; exact List.mem_append_right _ h2, hyn, hyc⟩
    · right
      exact hrel
  have hDrest : DstInv dst rest visited := by
    intro d hvd
    obtain ⟨y, hy, hyn, hyc⟩ := hDst d hvd
    rw [hqeq] at hy
    rcases List.mem_append.mp hy with h1 | h1
    · exact ⟨y, by rw [hreq]; exact List.mem_append_left _ h1, hyn, hyc⟩
    · rcases List.mem_cons.mp h1 with h2 | h2
      · subst h2
        exact absurd hyn hd
      · exact ⟨y, by rw [hreq]; exact List.mem_append_right _ h2, hyn, hyc⟩
  have hns : ∀ nb ∈ neighboursWithMetadata links e.node,
      lookupAssoc links (e.node, nb.1) = some nb.2 := by
    intro nb hnb
    obtain ⟨w, md⟩ := nb
    exact neighbours_lookup hnd hnb
  have hout := relax_fold_preserves hnn hwalk hcost
    (neighboursWithMetadata links e.node) hns rest visited
    hQrest hV hsrc hI6x hDrest ⟨dx, hdx, hdxc⟩
  obtain ⟨t1, t2, t3, t4, t5, t6, t7, t8, t9⟩ := hout
  refine ⟨t1, t2, t3, ?_, t5⟩
  intro v d hvd
  by_cases hv : v = e.node
  · subst hv
    rw [t9] at hvd
    rcases hI6 e.node d hvd with ⟨y, hy, hyn, hyc⟩ | hrel
    · rw [hqeq] at hy
      rcases List.mem_append.mp hy with h1 | h1
      · left
        exact ⟨y, t8 y (by rw [hreq]; exact List.mem_append_left _ h1), hyn, hyc⟩
      · rcases List.mem_cons.mp h1 with h2 | h2
        · subst h2
          right
          intro w md hedge
          obtain ⟨dw, hdw, hlew⟩ := t6 (w, md) (lookup_neighbours hedge)
          refine ⟨dw, hdw, ?_⟩
          rw [← hyc]
          exact hlew
        · left
          exact ⟨y, t8 y (by rw [hreq]; exact List.mem_append_right _ h2), hyn, hyc⟩
    · right
      exact relaxedAt_mono t7 hrel
  · exact t4 v d hvd hv

theorem dijkstra_frontier
    {links : List ((String × String) × LinkMetadata)} (hnn : NonnegLinks links)
    {queue : List QEntry} {visited : List (String × ℚ)}
    (hI6 : I6Inv links queue visited)
    {a v : String} {p : List String} (hw : Walk links a v p) :
    ∀ da, visitedLookup visited a = some da →
      (∃ e ∈ queue, e.cost ≤ da + walkCost links p) ∨
      (∃ dv, visitedLookup visited v = some dv ∧ dv ≤ da + walkCost links p) := by
  induction hw with
  | single a =>
    intro da hda
    right
    refine ⟨da, hda, ?_⟩
    have h0 : walkCost links [a] = 0 := rfl
    rw [h0]
    linarith
  | cons md hedge hw ih =>
    intro da hda
    rename_i a b w p
    obtain ⟨pq, hpq⟩ := walk_head hw
    have hm0 : 0 ≤ md.metric := hnn _ (lookupAssoc_mem hedge)
    have hp0 : 0 ≤ walkCost links p := walkCost_nonneg hnn hw
    have hcw : walkCost links (a :: p) = md.metric + walkCost links p := by
      rw [hpq]
      exact walkCost_cons links a b pq md hedge
    rcases hI6 a da hda with ⟨e, he, hnode, hcost⟩ | hrel
    · left
      refine ⟨e, he, ?_⟩
      rw [hcw, hcost]
      linarith
    · obtain ⟨db, hdb, hble⟩ := hrel b md hedge
      rcases ih db hdb with ⟨e, he, hle⟩ | ⟨dv, hdv, hle⟩
      · left
        refine ⟨e, he, ?_⟩
        rw [hcw]
        linarith
      · right
        refine ⟨dv, hdv, ?_⟩
        rw [hcw]
        linarith

theorem dijkstraLoop_sound
    {links : List ((String × String) × LinkMetadata)} {src dst : String}
    (hnn : NonnegLinks links) (hnd : NodupKeys links) :
    ∀ (fuel : Nat) (queue : List QEntry) (visited : List (String × ℚ)),
      DijkstraInv links src dst queue visited →
      ∀ res, dijkstraLoop links dst fuel queue visited = some res →
        (∀ p, res = some p → Walk links src dst p ∧
          ∀ p', Walk links src dst p' → walkCost links p ≤ walkCost links p') ∧
        (res = none → ∀ p', ¬ Walk links src dst p') := by
  intro fuel
  induction fuel with
  | zero =>
    intro queue visited _ res hres
    exact absurd hres (by simp [dijkstraLoop])
  | succ fuel ih =>
    intro queue visited hinv res hres
    rw [dijkstraLoop] at hres
    cases hpop : popMin queue with
    | none =>
      rw [hpop] at hres
      injection hres with hres
      subst hres
      refine ⟨fun p hp => absurd hp (by simp), fun _ p' hw => ?_⟩
      have hqe : queue = [] := popMin_none hpop
      obtain ⟨hQ, hV, hsrc, hI6, hDst⟩ := hinv
      rcases dijkstra_frontier hnn hI6 hw 0 hsrc with ⟨e, he, _⟩ | ⟨dv, hdv, _⟩
      · rw [hqe] at he
        exact absurd he (List.not_mem_nil e)
      · obtain ⟨e, he, _⟩ := hDst dv hdv
        rw [hqe] at he
        exact absurd he (List.not_mem_nil e)
    | some pr =>
      obtain ⟨e, rest⟩ := pr
      rw [hpop] at hres
      dsimp only at hres
      by_cases hd : e.node = dst
      · rw [if_pos hd] at hres
        injection hres with hres
        subst hres
        refine ⟨?_, fun hcon => absurd hcon (by simp)⟩
        intro p hp
        injection hp with hp
        subst hp
        obtain ⟨hQ, hV, hsrc, hI6, hDst⟩ := hinv
        have hmemq : e ∈ queue := by
          obtain ⟨⟨l1, l2, hq, _⟩, _⟩ := popMin_spec hpop
          rw [hq]
          exact List.mem_append_right _ (List.mem_cons_self _ _)
        obtain ⟨hwalk, hcost, _⟩ := hQ e hmemq
        have hmin := (popMin_spec hpop).2
        constructor
        · rw [← hd]
          exact hwalk
        · intro p' hw'
          rcases dijkstra_frontier hnn hI6 hw' 0 hsrc with ⟨y, hy, hyc⟩ | ⟨dv, hdv, hvc⟩
          · have hey := hmin y hy
            rw [hcost]
            linarith
          · obtain ⟨y, hy, hyn, hyc2⟩ := hDst dv hdv
            have hey := hmin y hy
            rw [hcost]
            linarith
      · rw [if_neg hd] at hres
        exact ih _ _ (dijkstra_inv_step hnn hnd hinv hpop hd) res hres

theorem visitedLookup_single_self (s : String) (c : ℚ) :
    visitedLookup [(s, c)] s = some c := by
  simp [visitedLookup, List.find?]

theorem visitedLookup_single {s v : String} {c d : ℚ}
    (h : visitedLookup [(s, c)] v = some d) : v = s ∧ d = c := by
  by_cases hv : s = v
  · subst hv
    rw [visitedLookup_single_self] at h
    injection h with h
    exact ⟨rfl, h.symm⟩
  · exfalso
    simp [visitedLookup, List.find?, hv] at h

theorem dijkstra_inv_init
    (links : List ((String × String) × LinkMetadata)) (src dst : String) :
    DijkstraInv links src dst [QEntry.mk 0 src [src]] [(src, 0)] := by
  refine ⟨?_, ?_, visitedLookup_single_self src 0, ?_, ?_⟩
  · intro e he
    rw [List.mem_singleton] at he
    subst he
    exact ⟨.single src, rfl, 0, visitedLookup_single_self src 0, le_rfl⟩
  · intro v d hvd
    obtain ⟨hv, hd⟩ := visitedLookup_single hvd
    subst hv
    subst hd
    exact ⟨[v], .single v, rfl⟩
  · intro v d hvd
    obtain ⟨hv, hd⟩ := visitedLookup_single hvd
    subst hv
    subst hd
    left
    exact ⟨QEntry.mk 0 v [v], List.mem_singleton_self _, rfl, rfl⟩
  · intro d hvd
    obtain ⟨hv, hd⟩ := visitedLookup_single hvd
    subst hd
    rw [hv]
    exact ⟨QEntry.mk 0 src [src], List.mem_singleton_self _, rfl, rfl⟩

/-- C3 counterexample: on the `add_link`-built state `c3NegTopo` (one
negative metric), `shortest_path "s" "t"` returns the direct path
`["s", "t"]` of total metric 2 even though the directed walk
`["s", "a", "t"]` has total metric 1, refuting minimality over every
topology state. -/
theorem c3_counterexample :
    shortest_path c3NegTopo "s" "t" 10 = some (some ["s", "t"]) ∧
    Walk c3NegTopo.links "s" "t" ["s", "a", "t"] ∧
    walkCost c3NegTopo.links ["s", "a", "t"] < walkCost c3NegTopo.links ["s", "t"] := by
  have hL : c3NegTopo.links =
      [(("s", "t"), { metric := 2, protocols := {"static"} }),
       (("s", "a"), { metric := 3, protocols := {"static"} }),
       (("a", "t"), { metric := -2, protocols := {"static"} })] := rfl
  refine ⟨?_, ?_, ?_⟩
  · rw [shortest_path,
      if_pos (show "s" ∈ c3NegTopo.nodes ∧ "t" ∈ c3NegTopo.nodes by decide)]
    rw [hL]
    simp +decide [dijkstraLoop, popMin, qLt, listStrLt, relaxAll, neighboursWithMetadata,
      relaxStep, visitedLookup, visitedSet, List.find?, List.filterMap]
  · exact .cons { metric := 3, protocols := {"static"} }
      (show lookupAssoc c3NegTopo.links ("s", "a") =
        some { metric := 3, protocols := {"static"} } from rfl)
      (.cons { metric := -2, protocols := {"static"} }
        (show lookupAssoc c3NegTopo.links ("a", "t") =
          some { metric := -2, protocols := {"static"} } from rfl)
        (.single "t"))
  · have h1 : walkCost c3NegTopo.links ["s", "a", "t"] = 3 + (-2 + 0) := rfl
    have h2 : walkCost c3NegTopo.links ["s", "t"] = 2 + 0 := rfl
    rw [h1, h2]
    norm_num

/-- C3 (amended): `shortest_path` returns `None` when either endpoint is
unknown; when every link metric is nonnegative — true of every state
built through packet ingestion alone, whose asserted metrics are `1.0`
and `max(1, cost)` — a returned sequence starts at `src`, ends at `dst`,
follows directed links, and has minimal total metric among all directed
walks from `src` to `dst`, while a `None` return means an unknown
endpoint or that no directed walk exists; and for two nodes joined by
exactly one directed link the two-node path `[src, dst]` is returned (the
search loop's partiality is made explicit by fuel).  With a negative
metric in the map the returned sequence need not be minimal. -/
theorem c3_shortest_path_amended :
    (∀ (t : NetworkTopology) (src dst : String) (fuel : Nat),
      ¬ (src ∈ t.nodes ∧ dst ∈ t.nodes) → shortest_path t src dst fuel = some none) ∧
    (∀ (t : NetworkTopology) (src dst : String) (fuel : Nat) (p : List String),
      NonnegLinks t.links → NodupKeys t.links →
      shortest_path t src dst fuel = some (some p) →
      Walk t.links src dst p ∧ p.head? = some src ∧ p.getLast? = some dst ∧
      ∀ p', Walk t.links src dst p' → walkCost t.links p ≤ walkCost t.links p') ∧
    (∀ (t : NetworkTopology) (src dst : String) (fuel : Nat),
      NonnegLinks t.links → NodupKeys t.links →
      shortest_path t src dst fuel = some none →
      src ∉ t.nodes ∨ dst ∉ t.nodes ∨ ∀ p', ¬ Walk t.links src dst p') ∧
    (∀ (A B : String) (md : LinkMetadata) (po : List (String × String)) (fuel : Nat),
      A ≠ B →
      shortest_path ⟨{A, B}, [((A, B), md)], po⟩ A B (fuel + 2) = some (some [A, B])) := by
  refine ⟨?_, ?_, ?_, ?_⟩
  · intro t src dst fuel h
    rw [shortest_path, if_neg h]
  · intro t src dst fuel p hnn hnd hsp
    rw [shortest_path] at hsp
    split_ifs at hsp with hmem
    · have hsound := dijkstraLoop_sound hnn hnd fuel _ _
        (dijkstra_inv_init t.links src dst) (some p) hsp
      obtain ⟨hw, hminim⟩ := hsound.1 p rfl
      obtain ⟨pq, hpq⟩ := walk_head hw
      refine ⟨hw, ?_, walk_getLast hw, hminim⟩
      rw [hpq]
      rfl
    · exact absurd hsp (by simp)
  · intro t src dst fuel hnn hnd hsp
    rw [shortest_path] at hsp
    split_ifs at hsp with hmem
    · right
      right
      have hsound := dijkstraLoop_sound hnn hnd fuel _ _
        (dijkstra_inv_init t.links src dst) none hsp
      exact fun p' hw => hsound.2 rfl p' hw
    · rcases not_and_or.mp hmem with h | h
      · exact Or.inl h
      · exact Or.inr (Or.inl h)
  · intro A B md po fuel hAB
    have hvB : visitedLookup [(A, (0 : ℚ))] B = none := by
      simp [visitedLookup, List.find?, hAB]
    rw [shortest_path]
    rw [if_pos (show A ∈ ({A, B} : Finset String) ∧ B ∈ ({A, B} : Finset String) from
      ⟨by simp, by simp⟩)]
    rw [show fuel + 2 = (fuel + 1) + 1 from rfl]
    rw [dijkstraLoop]
    rw [show popMin [QEntry.mk 0 A [A]] = some (QEntry.mk 0 A [A], []) from rfl]
    dsimp only
    rw [if_neg hAB]
    have hns : neighboursWithMetadata [((A, B), md)] A = [(B, md)] := by
      simp [neighboursWithMetadata]
    rw [relaxAll, hns, List.foldl_cons, List.foldl_nil]
    rw [relaxStep_push (fun d hd => by rw [hvB] at hd; exact absurd hd (by simp))]
    rw [List.nil_append, List.singleton_append]
    rw [dijkstraLoop]
    rw [show popMin [QEntry.mk (0 + md.metric) B [A, B]] =
      some (QEntry.mk (0 + md.metric) B [A, B], []) from rfl]
    dsimp only
    rw [if_pos rfl]

/-- Witness for the amended C3: the direct-link clause at the concrete
link `s→t` of metric 5 (with fuel 2), and through it the soundness
clause, exhibiting the returned `["s", "t"]` as a directed walk. -/
theorem c3_witness :
    (("s" : String) ≠ "t" ∧
      shortest_path
        { nodes := {"s", "t"},
          links := [(("s", "t"), { metric := 5, protocols := {"static"} })],
          prefix_origins := [] } "s" "t" 2 = some (some ["s", "t"])) ∧
    Walk [(("s", "t"), { metric := 5, protocols := {"static"} })] "s" "t" ["s", "t"] := by
  have hAB : ("s" : String) ≠ "t" := by decide
  have h4 := c3_shortest_path_amended.2.2.2 "s" "t"
    { metric := 5, protocols := {"static"} } [] 0 hAB
  refine ⟨⟨hAB, h4⟩, ?_⟩
  have h2 := c3_shortest_path_amended.2.1
    { nodes := {"s", "t"},
      links := [(("s", "t"), { metric := 5, protocols := {"static"} })],
      prefix_origins := [] } "s" "t" 2 ["s", "t"]
    (by norm_num [NonnegLinks]) (by simp [NodupKeys]) h4
  exact h2.1

end NetAnalyzer
